import Mathlib

/-!
# Warehouse schema reconciliation (`warehouse/schema.go`)

A shallow embedding of the schema merge engine (`mergeSchema`, with the page loop and
the synthetic tables of `consolidateStagingFilesSchemaUsingWarehouseSchema`), of the
schema diff engine (`getSchemaDiff`), of the type coercion (`handleSchemaChange`,
`handleDiscardTypes`) and of the schema cache (`updateLocalSchema`), followed by the
properties proved about them.

Modelling conventions.

* A Go map with string keys is the list of its entries, in the order a `range` loop
  visits them. Go leaves that order unspecified; every order is some list, so a
  statement proved for all lists holds for every order. A real Go map has no repeated
  key; where a property needs that, it is assumed explicitly (`SchemaWF`).
* A `map[string]string` value may be nil: reads and `range` treat nil as empty, a
  write into a nil map is a run-time panic. Functions that write into inner maps
  return `Option`, with `none` for the panic.
* Schemas are values: the arguments of one call share no inner map.
* What a function takes from outside the file (other packages, the database, the Go
  implementation) is a parameter: `GoRuntime`, `WarehouseUtils`, `DiscardContext`,
  `CallErrors`.
* A `float64` is a rational, an infinity or NaN; an `int` is an integer of the 32- or
  64-bit range.
-/

namespace Warehouse

/-! ## Go maps -/

/-- Entries of a Go map with string keys, in `range` order. -/
abbrev GoMap (V : Type) := List (String × V)

/-- Go `v, ok := m[k]`. -/
def GoMap.find {V : Type} : GoMap V → String → Option V
  | [], _ => none
  | e :: m, k => if e.1 = k then some e.2 else GoMap.find m k

/-- Go `m[k] = v` on an allocated map: the entry of `k` is overwritten where it
stands, a new key is added. -/
def GoMap.put {V : Type} : GoMap V → String → V → GoMap V
  | [], k, v => [(k, v)]
  | e :: m, k, v => if e.1 = k then (k, v) :: m else e :: GoMap.put m k v

/-- Keys of a map, in `range` order. -/
def GoMap.keys {V : Type} (m : GoMap V) : List String := m.map Prod.fst

/-- A Go `map[string]string` (column name to column type): `none` is the nil map. -/
abbrev ColumnMap := Option (GoMap String)

/-- The type `warehouseutils.SchemaT`, a `map[string]map[string]string`
(table name to column map). -/
abbrev SchemaT := GoMap ColumnMap

/-- Entries visited by `for columnName, columnType := range columnMap`. -/
def rangeColumns (columnMap : ColumnMap) : List (String × String) :=
  match columnMap with
  | none => []
  | some es => es

/-- Go `t, ok := columnMap[columnName]`, also on a nil map. -/
def columnTypeOf (columnMap : ColumnMap) (columnName : String) : Option String :=
  match columnMap with
  | none => none
  | some es => GoMap.find es columnName

/-- Go `schema[tableName]` without `ok`: the nil map when the table is absent. -/
def tableOf (schema : SchemaT) (tableName : String) : ColumnMap :=
  match GoMap.find schema tableName with
  | none => none
  | some columnMap => columnMap

/-- Go `t, ok := schema[tableName][columnName]`. -/
def typeOf (schema : SchemaT) (tableName columnName : String) : Option String :=
  columnTypeOf (tableOf schema tableName) columnName

/-- Go `schema[tableName][columnName] = columnType`: the inner map is read from the outer
one and written in place; `none` is the panic of a write into a nil map. -/
def setColumn (schema : SchemaT) (tableName columnName columnType : String) :
    Option SchemaT :=
  match tableOf schema tableName with
  | none => none
  | some es => some (GoMap.put schema tableName (some (GoMap.put es columnName columnType)))

/-- No key occurs twice, in the schema or in any of its column maps: what every Go
map value satisfies. -/
def SchemaWF (schema : SchemaT) : Prop :=
  (GoMap.keys schema).Nodup ∧ ∀ e ∈ schema, (GoMap.keys (rangeColumns e.2)).Nodup

instance (schema : SchemaT) : Decidable (SchemaWF schema) := by
  unfold SchemaWF; infer_instance

/-! ## `mergeSchema` -/

/-- Body of the innermost loop of `mergeSchema` (lines 171-189), for one
`columnName, columnType` of the staging schema's table `tableName`. -/
def mergeColumn (currentSchema : SchemaT) (tableName : String)
    (currentMergedSchema : SchemaT) (col : String × String) : Option SchemaT :=
  let columnName := col.1
  let columnType := col.2
  -- lines 185-188: adopt the type only if the merged schema has none yet
  let firstWriter : Option SchemaT :=
    match typeOf currentMergedSchema tableName columnName with
    | none => setColumn currentMergedSchema tableName columnName columnType
    | some _ => some currentMergedSchema
  if currentSchema.length > 0 then
    match GoMap.find currentSchema tableName with
    | some currentTable =>
      match columnTypeOf currentTable columnName with
      | some columnTypeInDB =>
        if columnTypeInDB = "string" ∧ columnType = "text" then
          setColumn currentMergedSchema tableName columnName columnType
        else
          setColumn currentMergedSchema tableName columnName columnTypeInDB
      | none => firstWriter
    | none => firstWriter
  else firstWriter

/-- Body of the loop over the tables of one staging schema (lines 167-190). -/
def mergeTable (currentSchema : SchemaT) (currentMergedSchema : SchemaT)
    (tbl : String × ColumnMap) : Option SchemaT :=
  let tableName := tbl.1
  let merged :=
    if (tableOf currentMergedSchema tableName).isNone then
      GoMap.put currentMergedSchema tableName (some [])
    else currentMergedSchema
  (rangeColumns tbl.2).foldlM (mergeColumn currentSchema tableName) merged

/-- Body of the loop over `schemaList` (lines 166-191), for one staging schema. -/
def mergeStaging (currentSchema : SchemaT) (currentMergedSchema : SchemaT)
    (schema : SchemaT) : Option SchemaT :=
  schema.foldlM (mergeTable currentSchema) currentMergedSchema

/-- The function `mergeSchema` (lines 162-193). -/
def mergeSchema (currentSchema : SchemaT) (schemaList : List SchemaT)
    (currentMergedSchema : SchemaT) : Option SchemaT :=
  let start : SchemaT := if currentMergedSchema.length = 0 then [] else currentMergedSchema
  schemaList.foldlM (mergeStaging currentSchema) start

/-- The page loop of `consolidateStagingFilesSchemaUsingWarehouseSchema` (lines 200-240).
`stagingFiles` lists the schema of each staging file, `pageSize` is the constant
`stagingFilesSchemaPaginationSize`, `count` and `consolidatedSchema` are the loop
variables; one unit of `fuel` is spent per page, and `none` stands for a panic or for
fuel running out. The staging-file table is a database outside this file: its query for
the ids of a page is taken to return the schema of each staging file of the page once,
in page order. -/
def pageLoop (pageSize : Nat) (schemaInLocalDB : SchemaT) (stagingFiles : List SchemaT) :
    Nat → Nat → SchemaT → Option SchemaT
  | 0, _, _ => none
  | fuel + 1, count, consolidatedSchema =>
    let lastIndex :=
      if count + pageSize ≥ stagingFiles.length then stagingFiles.length
      else count + pageSize
    let schemas := (stagingFiles.drop count).take (lastIndex - count)
    match mergeSchema schemaInLocalDB schemas consolidatedSchema with
    | none => none
    | some merged =>
      if count + pageSize ≥ stagingFiles.length then some merged
      else pageLoop pageSize schemaInLocalDB stagingFiles fuel (count + pageSize) merged

/-! ## `getSchemaDiff` -/

/-- The type `warehouseutils.SchemaDiffT`, with the fields `getSchemaDiff` fills. -/
structure SchemaDiffT where
  Tables : List String
  ColumnMaps : GoMap ColumnMap
  UpdatedSchema : GoMap ColumnMap
  Exists : Bool
  StringColumnsToBeAlteredToText : GoMap (List String)
  deriving DecidableEq, Repr

/-- Line 303: one column of a table of `currentSchema` is copied into
`diff.UpdatedSchema`. -/
def copyColumn (tableName : String) (diff : SchemaDiffT) (col : String × String) :
    Option SchemaDiffT :=
  match setColumn diff.UpdatedSchema tableName col.1 col.2 with
  | none => none
  | some updated => some { diff with UpdatedSchema := updated }

/-- Lines 301-304: one table of `currentSchema` is copied into `diff.UpdatedSchema`. -/
def copyTable (diff : SchemaDiffT) (tbl : String × ColumnMap) : Option SchemaDiffT :=
  (rangeColumns tbl.2).foldlM (copyColumn tbl.1)
    { diff with UpdatedSchema := GoMap.put diff.UpdatedSchema tbl.1 (some []) }

/-- Lines 316-323: one `columnName, columnType` of an upload table that `currentSchema`
has too. -/
def diffColumn (currentColumnsMap : ColumnMap) (tableName : String) (diff : SchemaDiffT)
    (col : String × String) : Option SchemaDiffT :=
  let columnName := col.1
  let columnType := col.2
  match columnTypeOf currentColumnsMap columnName with
  | none =>
    match setColumn diff.ColumnMaps tableName columnName columnType with
    | none => none
    | some columnMaps =>
      match setColumn diff.UpdatedSchema tableName columnName columnType with
      | none => none
      | some updated =>
        some { diff with ColumnMaps := columnMaps, UpdatedSchema := updated, Exists := true }
  | some currentType =>
    if columnType = "text" ∧ currentType = "string" then
      let listed :=
        match GoMap.find diff.StringColumnsToBeAlteredToText tableName with
        | none => []
        | some cols => cols
      some { diff with
        StringColumnsToBeAlteredToText :=
          GoMap.put diff.StringColumnsToBeAlteredToText tableName (listed ++ [columnName]),
        Exists := true }
    else some diff

/-- Lines 307-325: one `tableName, uploadColumnMap` of `uploadSchema`. -/
def diffTable (currentSchema : SchemaT) (diff : SchemaDiffT) (tbl : String × ColumnMap) :
    Option SchemaDiffT :=
  let tableName := tbl.1
  let uploadColumnMap := tbl.2
  match GoMap.find currentSchema tableName with
  | none =>
    some { diff with
      Tables := diff.Tables ++ [tableName],
      ColumnMaps := GoMap.put diff.ColumnMaps tableName uploadColumnMap,
      UpdatedSchema := GoMap.put diff.UpdatedSchema tableName uploadColumnMap,
      Exists := true }
  | some currentColumnsMap =>
    (rangeColumns uploadColumnMap).foldlM (diffColumn currentColumnsMap tableName)
      { diff with ColumnMaps := GoMap.put diff.ColumnMaps tableName (some []) }

/-- The value `diff` is initialised to (lines 292-297). -/
def emptyDiff : SchemaDiffT :=
  { Tables := [], ColumnMaps := [], UpdatedSchema := [], Exists := false,
    StringColumnsToBeAlteredToText := [] }

/-- The function `getSchemaDiff` (lines 291-329). -/
def getSchemaDiff (currentSchema uploadSchema : SchemaT) : Option SchemaDiffT :=
  match currentSchema.foldlM copyTable emptyDiff with
  | none => none
  | some copied => uploadSchema.foldlM (diffTable currentSchema) copied

/-! ## Closed forms used in the proofs

The loops above thread an `Option`; the functions below are the values they compute
when no write meets a nil map, one function per loop and per field. -/

/-- One column written into the columns of a table: `cols[col.1] = col.2`. -/
def putColumn (cols : GoMap String) (col : String × String) : GoMap String :=
  GoMap.put cols col.1 col.2

/-- What `mergeColumn` does to the columns `cols` of the merged table `tableName`. -/
def mergeColumnIn (currentSchema : SchemaT) (tableName : String) (cols : GoMap String)
    (col : String × String) : GoMap String :=
  match typeOf currentSchema tableName col.1 with
  | some columnTypeInDB =>
    GoMap.put cols col.1 (if columnTypeInDB = "string" ∧ col.2 = "text" then col.2
      else columnTypeInDB)
  | none =>
    match GoMap.find cols col.1 with
    | none => GoMap.put cols col.1 col.2
    | some _ => cols

/-- What `mergeTable` computes. -/
def mergeTableIn (currentSchema : SchemaT) (merged : SchemaT) (tbl : String × ColumnMap) :
    SchemaT :=
  GoMap.put merged tbl.1
    (some ((rangeColumns tbl.2).foldl (mergeColumnIn currentSchema tbl.1)
      (rangeColumns (tableOf merged tbl.1))))

/-- What `mergeStaging` computes. -/
def mergeStagingIn (currentSchema : SchemaT) (merged : SchemaT) (schema : SchemaT) :
    SchemaT :=
  schema.foldl (mergeTableIn currentSchema) merged

/-- What `mergeSchema` computes. -/
def mergeAll (currentSchema : SchemaT) (schemaList : List SchemaT) (merged : SchemaT) :
    SchemaT :=
  schemaList.foldl (mergeStagingIn currentSchema) merged

/-- Line 316: the upload column is absent from the current table. -/
def isNewColumn (currentColumnsMap : ColumnMap) (col : String × String) : Bool :=
  (columnTypeOf currentColumnsMap col.1).isNone

/-- Line 320: the upload column is text and the current one string. -/
def isWidening (currentColumnsMap : ColumnMap) (col : String × String) : Bool :=
  decide (col.2 = "text" ∧ columnTypeOf currentColumnsMap col.1 = some "string")

/-- The names `names` appended to the slice stored under `tableName` (line 321), none
when there is no name to append. -/
def appendColumns (altered : GoMap (List String)) (tableName : String)
    (names : List String) : GoMap (List String) :=
  match names with
  | [] => altered
  | _ :: _ =>
    GoMap.put altered tableName
      ((match GoMap.find altered tableName with
        | none => []
        | some cols => cols) ++ names)

/-- What `copyTable` does to `UpdatedSchema`. -/
def copyTableIn (updated : SchemaT) (tbl : String × ColumnMap) : SchemaT :=
  GoMap.put updated tbl.1 (some ((rangeColumns tbl.2).foldl putColumn []))

/-- What `diffTable` does to `Tables`. -/
def tablesIn (currentSchema : SchemaT) (tables : List String) (tbl : String × ColumnMap) :
    List String :=
  match GoMap.find currentSchema tbl.1 with
  | none => tables ++ [tbl.1]
  | some _ => tables

/-- What `diffTable` does to `ColumnMaps`. -/
def columnMapsIn (currentSchema : SchemaT) (columnMaps : SchemaT)
    (tbl : String × ColumnMap) : SchemaT :=
  GoMap.put columnMaps tbl.1
    (match GoMap.find currentSchema tbl.1 with
      | none => tbl.2
      | some currentColumnsMap =>
        some (((rangeColumns tbl.2).filter (isNewColumn currentColumnsMap)).foldl
          putColumn []))

/-- What `diffTable` does to `UpdatedSchema`. -/
def updatedIn (currentSchema : SchemaT) (updated : SchemaT) (tbl : String × ColumnMap) :
    SchemaT :=
  GoMap.put updated tbl.1
    (match GoMap.find currentSchema tbl.1 with
      | none => tbl.2
      | some currentColumnsMap =>
        some (((rangeColumns tbl.2).filter (isNewColumn currentColumnsMap)).foldl
          putColumn (rangeColumns (tableOf updated tbl.1))))

/-- What `diffTable` does to `StringColumnsToBeAlteredToText`. -/
def alteredIn (currentSchema : SchemaT) (altered : GoMap (List String))
    (tbl : String × ColumnMap) : GoMap (List String) :=
  match GoMap.find currentSchema tbl.1 with
  | none => altered
  | some currentColumnsMap =>
    appendColumns altered tbl.1
      (((rangeColumns tbl.2).filter (isWidening currentColumnsMap)).map Prod.fst)

/-- Does `diffTable` set `Exists` for this upload table? -/
def changes (currentSchema : SchemaT) (tbl : String × ColumnMap) : Bool :=
  match GoMap.find currentSchema tbl.1 with
  | none => true
  | some currentColumnsMap =>
    (rangeColumns tbl.2).any
      (fun col => isNewColumn currentColumnsMap col || isWidening currentColumnsMap col)

/-- What `diffTable` computes. -/
def diffTableIn (currentSchema : SchemaT) (diff : SchemaDiffT) (tbl : String × ColumnMap) :
    SchemaDiffT :=
  { Tables := tablesIn currentSchema diff.Tables tbl,
    ColumnMaps := columnMapsIn currentSchema diff.ColumnMaps tbl,
    UpdatedSchema := updatedIn currentSchema diff.UpdatedSchema tbl,
    Exists := diff.Exists || changes currentSchema tbl,
    StringColumnsToBeAlteredToText :=
      alteredIn currentSchema diff.StringColumnsToBeAlteredToText tbl }

/-- What `getSchemaDiff` computes. -/
def diffAll (currentSchema uploadSchema : SchemaT) : SchemaDiffT :=
  { Tables := uploadSchema.foldl (tablesIn currentSchema) [],
    ColumnMaps := uploadSchema.foldl (columnMapsIn currentSchema) [],
    UpdatedSchema :=
      uploadSchema.foldl (updatedIn currentSchema) (currentSchema.foldl copyTableIn []),
    Exists := uploadSchema.any (changes currentSchema),
    StringColumnsToBeAlteredToText := uploadSchema.foldl (alteredIn currentSchema) [] }

/-- Every table of `currentSchema` has an allocated column map in `updated`. -/
def CopiedIn (currentSchema updated : SchemaT) : Prop :=
  ∀ tableName, GoMap.find currentSchema tableName ≠ none →
    ∃ cols, tableOf updated tableName = some cols

/-- Go `diff.StringColumnsToBeAlteredToText[tableName]`: the nil slice when the table
has no entry. -/
def alteredColumns (diff : SchemaDiffT) (tableName : String) : List String :=
  match GoMap.find diff.StringColumnsToBeAlteredToText tableName with
  | none => []
  | some cols => cols

/-- The type a column gets when a staging schema offers `offered` for it: `inDB` is its
type in `currentSchema`, `merged` its type in the merged schema so far. -/
def offer (inDB : Option String) (merged : Option String) (offered : String) :
    Option String :=
  match inDB with
  | some columnTypeInDB =>
    some (if columnTypeInDB = "string" ∧ offered = "text" then offered else columnTypeInDB)
  | none =>
    match merged with
    | none => some offered
    | some ty => some ty

/-- The types one staging schema offers for a column, in the order its loops meet them. -/
def offersIn (tableName columnName : String) : SchemaT → List String
  | [] => []
  | tbl :: schema =>
    (if tbl.1 = tableName then
      ((rangeColumns tbl.2).filter (fun col => col.1 = columnName)).map Prod.snd
    else []) ++ offersIn tableName columnName schema

/-- The types a list of staging schemas offers for a column, in processing order. -/
def offersOf (tableName columnName : String) : List SchemaT → List String
  | [] => []
  | schema :: schemaList =>
    offersIn tableName columnName schema ++ offersOf tableName columnName schemaList

/-- The table names of a schema with the column names of each table, in `range` order. -/
def shape (schema : SchemaT) : List (String × Option (List String)) :=
  schema.map (fun tbl => (tbl.1, tbl.2.map GoMap.keys))

/-- The merged schema already has the table of `tbl` allocated, with all its columns. -/
def Covers (tbl : String × ColumnMap) (merged : SchemaT) : Prop :=
  ∃ cols, tableOf merged tbl.1 = some cols ∧
    ∀ col ∈ rangeColumns tbl.2, col.1 ∈ GoMap.keys cols

/-! ## Values and `handleSchemaChange` -/

/-- A Go `float64`. Every finite IEEE double is a rational number, so the finite values
are modelled by the rationals; the three other values are the infinities and NaN. -/
inductive Float64
  | finite (q : ℚ)
  | posInf
  | negInf
  | nan
  deriving DecidableEq

/-- A Go `interface{}` value, by dynamic type: the untyped nil, a `bool`, a `float64`, an
`int`, a `string`, or a value of some other type. -/
inductive Value
  | nil
  | bool (b : Bool)
  | float64 (f : Float64)
  | int (i : Int)
  | string (s : String)
  | other (description : String)
  deriving DecidableEq

/-- The width of Go's `int`, which the platform fixes. -/
inductive IntSize
  | bits32
  | bits64
  deriving DecidableEq

/-- Half the number of values of `int`: `2^31` or `2^63`. -/
def IntSize.half : IntSize → Int
  | IntSize.bits32 => 2147483648
  | IntSize.bits64 => 9223372036854775808

/-- The integer is a value of `int`. -/
def IntSize.fits (size : IntSize) (i : Int) : Prop :=
  -size.half ≤ i ∧ i < size.half

instance (size : IntSize) (i : Int) : Decidable (size.fits i) := by
  unfold IntSize.fits; infer_instance

/-- The value of `int` congruent to the integer modulo the number of values of `int`. -/
def IntSize.wrap (size : IntSize) (i : Int) : Int :=
  (i + size.half) % (2 * size.half) - size.half

/-- The rational with its fraction discarded (truncation toward zero). -/
def truncate (q : ℚ) : Int := Int.tdiv q.num q.den

/-- What the functions of this file take from the Go implementation: the width of `int`,
the `int` a conversion yields when the truncated value is no `int` (Go leaves it to the
implementation), and `fmt.Sprintf("%v", v)`. -/
structure GoRuntime where
  intSize : IntSize
  outOfRange : Float64 → Int
  sprint : Value → String

/-- Go `int(floatVal)`: the fraction is discarded; when the result is not a value of
`int`, or `floatVal` is not finite, the conversion yields an `int` the implementation
chooses. -/
def floatToInt (rt : GoRuntime) (floatVal : Float64) : Int :=
  match floatVal with
  | Float64.finite q =>
    if rt.intSize.fits (truncate q) then truncate q
    else rt.intSize.wrap (rt.outOfRange floatVal)
  | _ => rt.intSize.wrap (rt.outOfRange floatVal)

/-- The function `handleSchemaChange` (lines 26-43): the new column value and `ok`. -/
def handleSchemaChange (rt : GoRuntime) (existingDataType columnType : String)
    (columnVal : Value) : Value × Bool :=
  if existingDataType = "string" ∨ existingDataType = "text" then
    (Value.string (rt.sprint columnVal), true)
  else if (columnType = "int" ∨ columnType = "bigint") ∧ existingDataType = "float" then
    (columnVal, true)
  else if columnType = "float" ∧ (existingDataType = "int" ∨ existingDataType = "bigint") then
    match columnVal with
    | Value.float64 floatVal => (Value.int (floatToInt rt floatVal), true)
    | _ => (Value.nil, true)
  else
    (Value.nil, false)

/-- A runtime for the examples: a 64-bit `int`, the least `int` for a conversion out of
range (as on amd64), and a `Sprintf` left blank, on which no example depends. -/
def amd64 : GoRuntime :=
  { intSize := IntSize.bits64,
    outOfRange := fun _ => -9223372036854775808,
    sprint := fun _ => "" }

/-! ## The synthetic tables of `consolidateStagingFilesSchemaUsingWarehouseSchema` -/

/-- What the function takes from the package `warehouseutils`: the naming-case function,
the names of the three synthetic tables, the identity-resolution flag and the allowlist
of destination types. -/
structure WarehouseUtils where
  ToProviderCase : String → String → String
  DiscardsTable : String
  IdentityMergeRulesTable : String
  IdentityMappingsTable : String
  IDResolutionEnabled : Bool
  IdentityEnabledWarehouses : List String

/-- Modelled from the spec: `misc.ContainsString`, a helper outside this file, tells
whether the destination type "is in the identity-enabled allowlist". -/
def ContainsString (slice : List String) (str : String) : Bool :=
  decide (str ∈ slice)

/-- A map literal: its entries are written in order into a new map. -/
def mapLiteral (entries : List (String × String)) : GoMap String :=
  entries.foldl putColumn []

/-- The map `discards` (lines 244-255). -/
def discardsColumns (utils : WarehouseUtils) (destType : String) : GoMap String :=
  let discards := mapLiteral
    [(utils.ToProviderCase destType "table_name", "string"),
     (utils.ToProviderCase destType "row_id", "string"),
     (utils.ToProviderCase destType "column_name", "string"),
     (utils.ToProviderCase destType "column_value", "string"),
     (utils.ToProviderCase destType "received_at", "datetime"),
     (utils.ToProviderCase destType "uuid_ts", "datetime")]
  if destType = "BQ" then
    GoMap.put discards (utils.ToProviderCase destType "loaded_at") "datetime"
  else discards

/-- Lines 242-256: the discards table is set in the consolidated schema. -/
def injectDiscards (utils : WarehouseUtils) (destType : String)
    (consolidatedSchema : SchemaT) : SchemaT :=
  GoMap.put consolidatedSchema (utils.ToProviderCase destType utils.DiscardsTable)
    (some (discardsColumns utils destType))

/-- The slice `mergeRuleColumns` (lines 261-266). -/
def mergeRuleColumns (utils : WarehouseUtils) (destType : String) : List String :=
  [utils.ToProviderCase destType "merge_property_1_type",
   utils.ToProviderCase destType "merge_property_1_value",
   utils.ToProviderCase destType "merge_property_2_type",
   utils.ToProviderCase destType "merge_property_2_value"]

/-- Lines 268-270: a missing merge-rules column is added as string; `none` is the panic
of a write into a nil map. -/
def addMergeRuleColumn (mergeRulesSchema : ColumnMap) (colName : String) :
    Option ColumnMap :=
  match columnTypeOf mergeRulesSchema colName with
  | some _ => some mergeRulesSchema
  | none =>
    match mergeRulesSchema with
    | none => none
    | some cols => some (some (GoMap.put cols colName "string"))

/-- The map `identityMappings` (lines 273-278). -/
def identityMappingsColumns (utils : WarehouseUtils) (destType : String) : GoMap String :=
  mapLiteral
    [(utils.ToProviderCase destType "merge_property_type", "string"),
     (utils.ToProviderCase destType "merge_property_value", "string"),
     (utils.ToProviderCase destType "rudder_id", "string"),
     (utils.ToProviderCase destType "updated_at", "datetime")]

/-- Lines 258-281: the identity step. The columns added to `mergeRulesSchema` are added
to the map the consolidated schema holds, which is the same map. -/
def injectIdentity (utils : WarehouseUtils) (destType : String)
    (consolidatedSchema : SchemaT) : Option SchemaT :=
  if utils.IDResolutionEnabled = true ∧
      ContainsString utils.IdentityEnabledWarehouses destType = true then
    match GoMap.find consolidatedSchema
        (utils.ToProviderCase destType utils.IdentityMergeRulesTable) with
    | some mergeRulesSchema =>
      match (mergeRuleColumns utils destType).foldlM addMergeRuleColumn mergeRulesSchema with
      | none => none
      | some completed =>
        some (GoMap.put
          (GoMap.put consolidatedSchema
            (utils.ToProviderCase destType utils.IdentityMergeRulesTable) completed)
          (utils.ToProviderCase destType utils.IdentityMappingsTable)
          (some (identityMappingsColumns utils destType)))
    | none => some consolidatedSchema
  else some consolidatedSchema

/-- The function `consolidateStagingFilesSchemaUsingWarehouseSchema` (lines 195-284):
`destType` is `sHandle.warehouse.Type`, `localSchema` is `sHandle.localSchema`,
`stagingFiles` lists the schemas of `sHandle.stagingFiles`, and `pageSize` and `fuel` are
those of `pageLoop`. -/
def consolidateStagingFilesSchemaUsingWarehouseSchema (utils : WarehouseUtils)
    (pageSize : Nat) (destType : String) (localSchema : SchemaT)
    (stagingFiles : List SchemaT) (fuel : Nat) : Option SchemaT :=
  match pageLoop pageSize localSchema stagingFiles fuel 0 [] with
  | none => none
  | some consolidatedSchema =>
    injectIdentity utils destType (injectDiscards utils destType consolidatedSchema)

/-- Utilities for the examples: names are kept as they are, the tables are named as in
the upstream package, identity resolution is enabled for the destination types of
`allowlist` when `enabled` is set. -/
def exampleUtils (enabled : Bool) (allowlist : List String) : WarehouseUtils :=
  { ToProviderCase := fun _ name => name,
    DiscardsTable := "rudder_discards",
    IdentityMergeRulesTable := "rudder_identity_merge_rules",
    IdentityMappingsTable := "rudder_identity_mappings",
    IDResolutionEnabled := enabled,
    IdentityEnabledWarehouses := allowlist }

/-- Upper case, letter by letter. -/
def upperCase (s : String) : String :=
  String.mk (s.data.map Char.toUpper)

/-- Utilities for the examples whose naming-case function is not injective: names are
written in upper case for the destination type `SNOWFLAKE` and kept for the others. -/
def upperCaseUtils (enabled : Bool) (allowlist : List String) : WarehouseUtils :=
  { ToProviderCase := fun destType name =>
      if destType = "SNOWFLAKE" then upperCase name else name,
    DiscardsTable := "rudder_discards",
    IdentityMergeRulesTable := "rudder_identity_merge_rules",
    IdentityMappingsTable := "rudder_identity_mappings",
    IDResolutionEnabled := enabled,
    IdentityEnabledWarehouses := allowlist }

/-- Every table of the schema has an allocated column map. -/
def Allocated (schema : SchemaT) : Prop :=
  ∀ tableName cm, GoMap.find schema tableName = some cm → ∃ cols, cm = some cols

/-- What `addMergeRuleColumn` does to the columns of an allocated map. -/
def ensureColumn (cols : GoMap String) (colName : String) : GoMap String :=
  match GoMap.find cols colName with
  | some _ => cols
  | none => GoMap.put cols colName "string"

/-- What `injectIdentity` computes on a schema whose tables are allocated. -/
def identityIn (utils : WarehouseUtils) (destType : String) (consolidatedSchema : SchemaT) :
    SchemaT :=
  if utils.IDResolutionEnabled = true ∧
      ContainsString utils.IdentityEnabledWarehouses destType = true then
    match GoMap.find consolidatedSchema
        (utils.ToProviderCase destType utils.IdentityMergeRulesTable) with
    | some mergeRulesSchema =>
      GoMap.put
        (GoMap.put consolidatedSchema
          (utils.ToProviderCase destType utils.IdentityMergeRulesTable)
          (some ((mergeRuleColumns utils destType).foldl ensureColumn
            (rangeColumns mergeRulesSchema))))
        (utils.ToProviderCase destType utils.IdentityMappingsTable)
        (some (identityMappingsColumns utils destType))
    | none => consolidatedSchema
  else consolidatedSchema

/-! ## `handleDiscardTypes` -/

/-- The type `DataT`, a `map[string]interface{}`: the columns of one row. -/
abbrev DataT := GoMap Value

/-- What `handleDiscardTypes` takes from outside this file: `job.getColumnName`, and of
the event loader of the job's destination type `IsLoadTimeColumn`, the time stamp
`jobRun.uuidTS.Format(eventLoader.GetLoadTimeFomat(column))`, and `WriteToString`, which
reads the columns added to the loader, in the order they were added. -/
structure DiscardContext where
  getColumnName : String → String
  IsLoadTimeColumn : String → Bool
  formattedUuidTS : String → String
  WriteToString : List (String × Value) → Except String String

/-- The function `handleDiscardTypes` (lines 45-72). `gzWriter` lists what was written to
the writer so far; the result is the error returned (`none` for nil) and what is written
to the writer after the call. -/
def handleDiscardTypes (rt : GoRuntime) (ctx : DiscardContext) (tableName columnName : String)
    (columnVal : Value) (columnData : DataT) (gzWriter : List String) :
    Option String × List String :=
  match GoMap.find columnData (ctx.getColumnName "id"),
      GoMap.find columnData (ctx.getColumnName "received_at") with
  | some rowID, some receivedAt =>
    let eventLoader : List (String × Value) :=
      [("column_name", Value.string columnName),
       ("column_value", Value.string (rt.sprint columnVal)),
       ("received_at", receivedAt),
       ("row_id", rowID),
       ("table_name", Value.string tableName)]
    let eventLoader :=
      if ctx.IsLoadTimeColumn "uuid_ts" = true then
        eventLoader ++ [("uuid_ts", Value.string (ctx.formattedUuidTS "uuid_ts"))]
      else eventLoader
    let eventLoader :=
      if ctx.IsLoadTimeColumn "loaded_at" = true then
        eventLoader ++ [("loaded_at", Value.string (ctx.formattedUuidTS "loaded_at"))]
      else eventLoader
    match ctx.WriteToString eventLoader with
    | Except.error err => (some err, gzWriter)
    | Except.ok eventData => (none, gzWriter ++ [eventData])
  | _, _ => (none, gzWriter)

/-- A context for the examples: column names are kept as they are, `uuid_ts` is the one
load-time column, and `WriteToString` writes the number of columns of the record. -/
def exampleContext : DiscardContext :=
  { getColumnName := fun name => name,
    IsLoadTimeColumn := fun name => decide (name = "uuid_ts"),
    formattedUuidTS := fun _ => "2020-01-01",
    WriteToString := fun columns => Except.ok (toString columns.length) }

/-! ## `updateLocalSchema` -/

/-- The fields of `sHandle.warehouse` that `updateLocalSchema` reads: `Source.ID`,
`Destination.ID`, `Namespace` and `Type` (here `DestType`). -/
structure WarehouseT where
  SourceID : String
  DestinationID : String
  Namespace : String
  DestType : String
  deriving DecidableEq

/-- A row of the table `warehouseutils.WarehouseSchemasTable`, with the columns the
`INSERT` of line 128 names; `schema` is the schema whose `json.Marshal` the column holds,
`created_at` the time stamp. -/
structure SchemaRow where
  source_id : String
  Namespace : String
  destination_id : String
  destination_type : String
  schema : SchemaT
  created_at : Nat
  deriving DecidableEq

/-- What the calls outside this file report during one call of `updateLocalSchema`: nil
(`none`) or an error, for the `Scan` of line 117, `json.Marshal`, `Prepare` and the
`Exec` of line 136 or 139. A statement that reports an error leaves the table as it
was. -/
structure CallErrors where
  scan : Option String
  marshal : Option String
  prepare : Option String
  exec : Option String

/-- No call outside the file reports an error. -/
def noErrors : CallErrors :=
  { scan := none, marshal := none, prepare := none, exec := none }

/-- The `WHERE` clause of lines 116 and 138: the row is the one of the warehouse's source,
destination and namespace. (Line 116 builds it with `Sprintf`; the identifiers are taken
to hold no quote.) -/
def SchemaRow.isOf (row : SchemaRow) (warehouse : WarehouseT) : Bool :=
  decide (row.source_id = warehouse.SourceID ∧ row.destination_id = warehouse.DestinationID ∧
    row.Namespace = warehouse.Namespace)

/-- The function `updateLocalSchema` (lines 109-146) on the table `rows`: the error
returned (`none` for nil) and the table after the call. `now` is `timeutil.Now()`.
In the branch of `count == 0` the `err` that line 130 declares belongs to that block: the
error of the `Exec` of line 136 is assigned to it, and line 141 tests the outer `err`,
which is nil there. -/
def updateLocalSchema (errors : CallErrors) (now : Nat) (warehouse : WarehouseT)
    (updatedSchema : SchemaT) (rows : List SchemaRow) : Option String × List SchemaRow :=
  match errors.scan with
  | some err => (some err, rows)
  | none =>
    let count := (rows.filter (fun row => row.isOf warehouse)).length
    match errors.marshal with
    | some err => (some err, rows)
    | none =>
      if count = 0 then
        match errors.prepare with
        | some err => (some err, rows)
        | none =>
          match errors.exec with
          | some _ => (none, rows)
          | none =>
            (none, rows ++
              [{ source_id := warehouse.SourceID,
                 Namespace := warehouse.Namespace,
                 destination_id := warehouse.DestinationID,
                 destination_type := warehouse.DestType,
                 schema := updatedSchema,
                 created_at := now }])
      else
        match errors.exec with
        | some err => (some err, rows)
        | none =>
          (none, rows.map (fun row =>
            if row.isOf warehouse = true then { row with schema := updatedSchema } else row))

/-! ## Go maps: lookups after writes -/

theorem GoMap.find_put {V : Type} (m : GoMap V) (k k' : String) (v : V) :
    GoMap.find (GoMap.put m k v) k' = if k = k' then some v else GoMap.find m k' := by
  induction m with
  | nil =>
    by_cases h : k = k' <;> simp [GoMap.put, GoMap.find, h]
  | cons e m ih =>
    obtain ⟨a, b⟩ := e
    by_cases h : a = k
    · subst h
      by_cases h' : a = k' <;> simp [GoMap.put, GoMap.find, h']
    · by_cases h' : a = k'
      · subst h'
        have h'' : ¬ k = a := fun x => h x.symm
        simp [GoMap.put, GoMap.find, h, h'']
      · simp [GoMap.put, GoMap.find, h, h', ih]

theorem GoMap.find_put_self {V : Type} (m : GoMap V) (k : String) (v : V) :
    GoMap.find (GoMap.put m k v) k = some v := by
  simp [GoMap.find_put]

theorem GoMap.find_put_ne {V : Type} (m : GoMap V) {k k' : String} (v : V) (h : k ≠ k') :
    GoMap.find (GoMap.put m k v) k' = GoMap.find m k' := by
  simp [GoMap.find_put, h]

theorem GoMap.put_put {V : Type} (m : GoMap V) (k : String) (v w : V) :
    GoMap.put (GoMap.put m k v) k w = GoMap.put m k w := by
  induction m with
  | nil => simp [GoMap.put]
  | cons e m ih =>
    by_cases h : e.1 = k
    · simp [GoMap.put, h]
    · simp [GoMap.put, h, ih]

theorem GoMap.put_of_find {V : Type} (m : GoMap V) (k : String) (v : V)
    (h : GoMap.find m k = some v) : GoMap.put m k v = m := by
  induction m with
  | nil => simp [GoMap.find] at h
  | cons e m ih =>
    by_cases hk : e.1 = k
    · simp only [GoMap.find, hk, if_true, Option.some.injEq] at h
      simp only [GoMap.put, hk, if_true]
      rw [← hk, ← h]
    · simp only [GoMap.find, hk, if_false] at h
      simp only [GoMap.put, hk, if_false, ih h]

theorem GoMap.find_isSome_iff {V : Type} (m : GoMap V) (k : String) :
    (GoMap.find m k).isSome = true ↔ k ∈ GoMap.keys m := by
  induction m with
  | nil => simp [GoMap.find, GoMap.keys]
  | cons e m ih =>
    by_cases hk : e.1 = k
    · simp [GoMap.find, GoMap.keys, hk]
    · have hk' : ¬ k = e.1 := fun x => hk x.symm
      simp only [GoMap.keys] at ih
      simp [GoMap.find, GoMap.keys, hk, hk', ih]

theorem GoMap.find_eq_none_iff {V : Type} (m : GoMap V) (k : String) :
    GoMap.find m k = none ↔ k ∉ GoMap.keys m := by
  rw [← GoMap.find_isSome_iff]
  cases GoMap.find m k <;> simp

theorem GoMap.mem_of_find {V : Type} (m : GoMap V) (k : String) (v : V)
    (h : GoMap.find m k = some v) : (k, v) ∈ m := by
  induction m with
  | nil => simp [GoMap.find] at h
  | cons e m ih =>
    by_cases hk : e.1 = k
    · simp only [GoMap.find, hk, if_true, Option.some.injEq] at h
      have : e = (k, v) := by rw [← hk, ← h]
      simp [this]
    · simp only [GoMap.find, hk, if_false] at h
      exact List.mem_cons_of_mem _ (ih h)

theorem GoMap.find_of_mem {V : Type} (m : GoMap V) (k : String) (v : V)
    (hnd : (GoMap.keys m).Nodup) (h : (k, v) ∈ m) : GoMap.find m k = some v := by
  induction m with
  | nil => simp at h
  | cons e m ih =>
    simp only [GoMap.keys, List.map_cons, List.nodup_cons] at hnd
    rcases List.mem_cons.1 h with h | h
    · simp [GoMap.find, ← h]
    · have hk : ¬ e.1 = k := by
        intro hk
        exact hnd.1 (List.mem_map.2 ⟨(k, v), h, hk.symm⟩)
      simp only [GoMap.find, hk, if_false]
      exact ih hnd.2 h

theorem tableOf_find {schema : SchemaT} {tableName : String} {cols : GoMap String}
    (h : tableOf schema tableName = some cols) :
    GoMap.find schema tableName = some (some cols) := by
  unfold tableOf at h
  cases hf : GoMap.find schema tableName with
  | none => simp [hf] at h
  | some cm => simp [hf] at h; simp [h]

theorem tableOf_put (schema : SchemaT) (tableName other : String) (cm : ColumnMap) :
    tableOf (GoMap.put schema tableName cm) other
      = if tableName = other then cm else tableOf schema other := by
  unfold tableOf
  rw [GoMap.find_put]
  by_cases h : tableName = other <;> simp [h]

theorem typeOf_put (schema : SchemaT) (tableName other columnName : String)
    (cm : ColumnMap) :
    typeOf (GoMap.put schema tableName cm) other columnName
      = if tableName = other then columnTypeOf cm columnName
        else typeOf schema other columnName := by
  unfold typeOf
  rw [tableOf_put]
  by_cases h : tableName = other <;> simp [h]

/-- A loop whose body always returns is the pure fold of what the body computes. -/
theorem foldlM_some {S A : Type} (step : S → A → Option S) (f : S → A → S)
    (h : ∀ s e, step s e = some (f s e)) (l : List A) (s : S) :
    l.foldlM step s = some (l.foldl f s) := by
  induction l generalizing s with
  | nil => rfl
  | cons e l ih => simp [List.foldlM_cons, h, ih]

/-! ## `mergeSchema` never panics, and its closed form -/

theorem typeOf_eq_find (currentSchema : SchemaT) (tableName columnName : String) :
    typeOf currentSchema tableName columnName =
      if currentSchema.length > 0 then
        match GoMap.find currentSchema tableName with
        | some currentTable => columnTypeOf currentTable columnName
        | none => none
      else none := by
  cases currentSchema with
  | nil => simp [typeOf, tableOf, GoMap.find, columnTypeOf]
  | cons e l =>
    simp only [List.length_cons, gt_iff_lt, Nat.zero_lt_succ, if_true, typeOf, tableOf]
    cases GoMap.find (e :: l) tableName <;> simp [columnTypeOf]

theorem mergeColumn_eq (currentSchema merged : SchemaT) (tableName : String)
    (cols : GoMap String) (col : String × String)
    (h : tableOf merged tableName = some cols) :
    mergeColumn currentSchema tableName merged col
      = some (GoMap.put merged tableName
          (some (mergeColumnIn currentSchema tableName cols col))) := by
  have hfirst :
      (match typeOf merged tableName col.1 with
        | none => setColumn merged tableName col.1 col.2
        | some _ => some merged)
      = some (GoMap.put merged tableName
          (some (match GoMap.find cols col.1 with
            | none => GoMap.put cols col.1 col.2
            | some _ => cols))) := by
    have ht : typeOf merged tableName col.1 = GoMap.find cols col.1 := by
      simp [typeOf, h, columnTypeOf]
    rw [ht]
    cases hc : GoMap.find cols col.1 with
    | none => simp [setColumn, h]
    | some ty => simp [GoMap.put_of_find merged tableName (some cols) (tableOf_find h)]
  have hcur := typeOf_eq_find currentSchema tableName col.1
  unfold mergeColumn mergeColumnIn
  by_cases hlen : currentSchema.length > 0
  · simp only [hlen, if_true] at hcur ⊢
    cases hf : GoMap.find currentSchema tableName with
    | none =>
      simp only [hf] at hcur
      simp only [hcur, hfirst]
    | some currentTable =>
      simp only [hf] at hcur
      cases hc : columnTypeOf currentTable col.1 with
      | none =>
        simp only [hc] at hcur
        simp only [hc, hcur, hfirst]
      | some columnTypeInDB =>
        simp only [hc] at hcur
        simp only [hc, hcur, setColumn, h]
        by_cases hw : columnTypeInDB = "string" ∧ col.2 = "text" <;> simp [hw]
  · simp only [hlen, if_false] at hcur ⊢
    simp only [hcur, hfirst]

theorem mergeColumns_eq (currentSchema : SchemaT) (tableName : String)
    (es : List (String × String)) (merged : SchemaT) (cols : GoMap String)
    (h : tableOf merged tableName = some cols) :
    es.foldlM (mergeColumn currentSchema tableName) merged
      = some (GoMap.put merged tableName
          (some (es.foldl (mergeColumnIn currentSchema tableName) cols))) := by
  induction es generalizing merged cols with
  | nil =>
    simp [GoMap.put_of_find merged tableName (some cols) (tableOf_find h)]
  | cons col es ih =>
    rw [List.foldlM_cons, mergeColumn_eq currentSchema merged tableName cols col h]
    simp only [Option.bind_eq_bind, Option.some_bind, List.foldl_cons]
    rw [ih _ (mergeColumnIn currentSchema tableName cols col) (by simp [tableOf_put]),
      GoMap.put_put]

theorem mergeTable_eq (currentSchema merged : SchemaT) (tbl : String × ColumnMap) :
    mergeTable currentSchema merged tbl = some (mergeTableIn currentSchema merged tbl) := by
  unfold mergeTable mergeTableIn
  cases h : tableOf merged tbl.1 with
  | none =>
    simp only [h, Option.isNone_none, if_true]
    rw [mergeColumns_eq currentSchema tbl.1 _ _ [] (by simp [tableOf_put]), GoMap.put_put]
    rfl
  | some cols =>
    simp only [h, Option.isNone_some, Bool.false_eq_true, if_false]
    rw [mergeColumns_eq currentSchema tbl.1 _ _ cols h]
    rfl

theorem mergeStaging_eq (currentSchema merged schema : SchemaT) :
    mergeStaging currentSchema merged schema
      = some (mergeStagingIn currentSchema merged schema) :=
  foldlM_some _ _ (mergeTable_eq currentSchema) schema merged

theorem mergeSchema_eq (currentSchema : SchemaT) (schemaList : List SchemaT)
    (merged : SchemaT) :
    mergeSchema currentSchema schemaList merged
      = some (mergeAll currentSchema schemaList merged) := by
  unfold mergeSchema mergeAll
  have hstart : (if merged.length = 0 then ([] : SchemaT) else merged) = merged := by
    cases merged <;> simp
  rw [hstart]
  exact foldlM_some _ _ (mergeStaging_eq currentSchema) schemaList merged

/-! ## `getSchemaDiff` never panics, and its closed form -/

theorem copyColumns_eq (tableName : String) (es : List (String × String))
    (diff : SchemaDiffT) (cols : GoMap String)
    (h : tableOf diff.UpdatedSchema tableName = some cols) :
    es.foldlM (copyColumn tableName) diff
      = some { diff with
          UpdatedSchema :=
            GoMap.put diff.UpdatedSchema tableName (some (es.foldl putColumn cols)) } := by
  induction es generalizing diff cols with
  | nil =>
    simp [GoMap.put_of_find diff.UpdatedSchema tableName (some cols) (tableOf_find h)]
  | cons col es ih =>
    have hstep : copyColumn tableName diff col
        = some { diff with
            UpdatedSchema :=
              GoMap.put diff.UpdatedSchema tableName (some (putColumn cols col)) } := by
      simp [copyColumn, setColumn, h, putColumn]
    rw [List.foldlM_cons, hstep]
    simp only [Option.bind_eq_bind, Option.some_bind, List.foldl_cons]
    rw [ih _ (putColumn cols col) (by simp [tableOf_put])]
    simp [GoMap.put_put]

theorem copyTable_eq (diff : SchemaDiffT) (tbl : String × ColumnMap) :
    copyTable diff tbl
      = some { diff with UpdatedSchema := copyTableIn diff.UpdatedSchema tbl } := by
  unfold copyTable copyTableIn
  rw [copyColumns_eq tbl.1 _ _ [] (by simp [tableOf_put])]
  simp [GoMap.put_put]

theorem copyTables_eq (currentSchema : SchemaT) (diff : SchemaDiffT) :
    currentSchema.foldlM copyTable diff
      = some { diff with
          UpdatedSchema := currentSchema.foldl copyTableIn diff.UpdatedSchema } := by
  induction currentSchema generalizing diff with
  | nil => rfl
  | cons tbl l ih =>
    rw [List.foldlM_cons, copyTable_eq]
    simp only [Option.bind_eq_bind, Option.some_bind, List.foldl_cons]
    rw [ih]

theorem appendColumns_cons (altered : GoMap (List String)) (tableName name : String)
    (names : List String) :
    appendColumns (appendColumns altered tableName [name]) tableName names
      = appendColumns altered tableName (name :: names) := by
  cases names with
  | nil => rfl
  | cons n ns => simp [appendColumns, GoMap.find_put_self, GoMap.put_put]

theorem diffColumn_eq (currentColumnsMap : ColumnMap) (tableName : String)
    (diff : SchemaDiffT) (col : String × String) (added updated : GoMap String)
    (ha : tableOf diff.ColumnMaps tableName = some added)
    (hu : tableOf diff.UpdatedSchema tableName = some updated) :
    diffColumn currentColumnsMap tableName diff col
      = some
        { Tables := diff.Tables,
          ColumnMaps := GoMap.put diff.ColumnMaps tableName
            (some (if isNewColumn currentColumnsMap col then putColumn added col
              else added)),
          UpdatedSchema := GoMap.put diff.UpdatedSchema tableName
            (some (if isNewColumn currentColumnsMap col then putColumn updated col
              else updated)),
          Exists := diff.Exists
            || (isNewColumn currentColumnsMap col || isWidening currentColumnsMap col),
          StringColumnsToBeAlteredToText :=
            appendColumns diff.StringColumnsToBeAlteredToText tableName
              (if isWidening currentColumnsMap col then [col.1] else []) } := by
  have hca := GoMap.put_of_find diff.ColumnMaps tableName (some added) (tableOf_find ha)
  have hcu := GoMap.put_of_find diff.UpdatedSchema tableName (some updated) (tableOf_find hu)
  unfold diffColumn isNewColumn isWidening
  cases hc : columnTypeOf currentColumnsMap col.1 with
  | none =>
    simp [hc, setColumn, ha, hu, putColumn, appendColumns]
  | some currentType =>
    obtain ⟨tables, columnMaps, updatedSchema, changed, altered⟩ := diff
    by_cases h1 : col.2 = "text" <;> by_cases h2 : currentType = "string" <;>
      simp_all [appendColumns]

theorem diffColumns_eq (currentColumnsMap : ColumnMap) (tableName : String)
    (es : List (String × String)) (diff : SchemaDiffT) (added updated : GoMap String)
    (ha : tableOf diff.ColumnMaps tableName = some added)
    (hu : tableOf diff.UpdatedSchema tableName = some updated) :
    es.foldlM (diffColumn currentColumnsMap tableName) diff
      = some
        { Tables := diff.Tables,
          ColumnMaps := GoMap.put diff.ColumnMaps tableName
            (some ((es.filter (isNewColumn currentColumnsMap)).foldl putColumn added)),
          UpdatedSchema := GoMap.put diff.UpdatedSchema tableName
            (some ((es.filter (isNewColumn currentColumnsMap)).foldl putColumn updated)),
          Exists := diff.Exists
            || es.any (fun col =>
                isNewColumn currentColumnsMap col || isWidening currentColumnsMap col),
          StringColumnsToBeAlteredToText :=
            appendColumns diff.StringColumnsToBeAlteredToText tableName
              ((es.filter (isWidening currentColumnsMap)).map Prod.fst) } := by
  induction es generalizing diff added updated with
  | nil =>
    simp [appendColumns,
      GoMap.put_of_find diff.ColumnMaps tableName (some added) (tableOf_find ha),
      GoMap.put_of_find diff.UpdatedSchema tableName (some updated) (tableOf_find hu)]
  | cons col es ih =>
    rw [List.foldlM_cons, diffColumn_eq currentColumnsMap tableName diff col added updated
      ha hu]
    simp only [Option.bind_eq_bind, Option.some_bind]
    rw [ih _ (if isNewColumn currentColumnsMap col then putColumn added col else added)
      (if isNewColumn currentColumnsMap col then putColumn updated col else updated)
      (by simp [tableOf_put]) (by simp [tableOf_put])]
    by_cases hn : isNewColumn currentColumnsMap col = true
    · by_cases hw : isWidening currentColumnsMap col = true
      · simp [hn, hw, GoMap.put_put, appendColumns_cons, List.filter_cons]
      · simp [hn, hw, GoMap.put_put, appendColumns, List.filter_cons]
    · by_cases hw : isWidening currentColumnsMap col = true
      · simp [hn, hw, GoMap.put_put, appendColumns_cons, List.filter_cons]
      · simp [hn, hw, GoMap.put_put, appendColumns, List.filter_cons]

theorem diffTable_eq (currentSchema : SchemaT) (diff : SchemaDiffT)
    (tbl : String × ColumnMap) (h : CopiedIn currentSchema diff.UpdatedSchema) :
    diffTable currentSchema diff tbl = some (diffTableIn currentSchema diff tbl) := by
  unfold diffTable diffTableIn tablesIn columnMapsIn updatedIn alteredIn changes
  cases hf : GoMap.find currentSchema tbl.1 with
  | none => simp [hf]
  | some currentColumnsMap =>
    obtain ⟨cols, hcols⟩ := h tbl.1 (by simp [hf])
    simp only [hf]
    rw [diffColumns_eq currentColumnsMap tbl.1 _ _ [] cols (by simp [tableOf_put])
      (by simpa using hcols)]
    simp [GoMap.put_put, hcols, rangeColumns]

theorem copied_allocated (l : SchemaT) (updated : SchemaT) (tableName : String)
    (h : GoMap.find l tableName ≠ none ∨ ∃ cols, tableOf updated tableName = some cols) :
    ∃ cols, tableOf (l.foldl copyTableIn updated) tableName = some cols := by
  induction l generalizing updated with
  | nil =>
    rcases h with h | h
    · simp [GoMap.find] at h
    · exact h
  | cons e l ih =>
    rw [List.foldl_cons]
    apply ih
    by_cases hk : e.1 = tableName
    · right
      exact ⟨_, by rw [copyTableIn, tableOf_put, if_pos hk]⟩
    · rcases h with h | h
      · left
        simpa [GoMap.find, hk] using h
      · right
        obtain ⟨cols, hcols⟩ := h
        exact ⟨cols, by rw [copyTableIn, tableOf_put, if_neg hk, hcols]⟩

theorem updatedIn_copied (currentSchema updated : SchemaT) (tbl : String × ColumnMap)
    (h : CopiedIn currentSchema updated) :
    CopiedIn currentSchema (updatedIn currentSchema updated tbl) := by
  intro tableName hcur
  unfold updatedIn
  rw [tableOf_put]
  by_cases hk : tbl.1 = tableName
  · rw [if_pos hk]
    cases hf : GoMap.find currentSchema tbl.1 with
    | none => rw [hk] at hf; exact absurd hf hcur
    | some currentColumnsMap => exact ⟨_, rfl⟩
  · rw [if_neg hk]
    exact h tableName hcur

theorem diffTables_eq (currentSchema : SchemaT) (l : SchemaT) (diff : SchemaDiffT)
    (h : CopiedIn currentSchema diff.UpdatedSchema) :
    l.foldlM (diffTable currentSchema) diff
      = some
        { Tables := l.foldl (tablesIn currentSchema) diff.Tables,
          ColumnMaps := l.foldl (columnMapsIn currentSchema) diff.ColumnMaps,
          UpdatedSchema := l.foldl (updatedIn currentSchema) diff.UpdatedSchema,
          Exists := diff.Exists || l.any (changes currentSchema),
          StringColumnsToBeAlteredToText :=
            l.foldl (alteredIn currentSchema) diff.StringColumnsToBeAlteredToText } := by
  induction l generalizing diff with
  | nil => simp
  | cons tbl l ih =>
    rw [List.foldlM_cons, diffTable_eq currentSchema diff tbl h]
    simp only [Option.bind_eq_bind, Option.some_bind]
    rw [ih _ (updatedIn_copied currentSchema _ tbl h)]
    simp [diffTableIn, Bool.or_assoc]

theorem getSchemaDiff_eq (currentSchema uploadSchema : SchemaT) :
    getSchemaDiff currentSchema uploadSchema = some (diffAll currentSchema uploadSchema) := by
  unfold getSchemaDiff
  rw [copyTables_eq]
  simp only
  rw [diffTables_eq]
  · simp [diffAll, emptyDiff]
  · intro tableName hcur
    exact copied_allocated currentSchema _ tableName (Or.inl hcur)

/-! ## Folds that write one key per entry -/

/-- A key that no entry of the loop writes keeps its value. -/
theorem foldl_find_of_not_mem {V A : Type} (step : GoMap V → String × A → GoMap V)
    (frame : ∀ m e k, e.1 ≠ k → GoMap.find (step m e) k = GoMap.find m k)
    (l : List (String × A)) (m : GoMap V) (k : String) (h : k ∉ l.map Prod.fst) :
    GoMap.find (l.foldl step m) k = GoMap.find m k := by
  induction l generalizing m with
  | nil => rfl
  | cons e l ih =>
    simp only [List.map_cons, List.mem_cons, not_or] at h
    rw [List.foldl_cons, ih _ h.2, frame m e k (fun x => h.1 x.symm)]

/-- With no repeated key, the value of a key after the loop is the one its entry wrote. -/
theorem foldl_find_of_mem {V A : Type} (step : GoMap V → String × A → GoMap V)
    (frame : ∀ m e k, e.1 ≠ k → GoMap.find (step m e) k = GoMap.find m k)
    (loc : ∀ m m' e, GoMap.find m e.1 = GoMap.find m' e.1 →
      GoMap.find (step m e) e.1 = GoMap.find (step m' e) e.1)
    (l : List (String × A)) (m : GoMap V) (e : String × A)
    (hnd : (l.map Prod.fst).Nodup) (he : e ∈ l) :
    GoMap.find (l.foldl step m) e.1 = GoMap.find (step m e) e.1 := by
  induction l generalizing m with
  | nil => simp at he
  | cons e0 l ih =>
    simp only [List.map_cons, List.nodup_cons] at hnd
    rw [List.foldl_cons]
    rcases List.mem_cons.1 he with h | h
    · subst h
      exact foldl_find_of_not_mem step frame l _ _ hnd.1
    · have hne : e0.1 ≠ e.1 := by
        intro hk
        exact hnd.1 (List.mem_map.2 ⟨e, h, hk.symm⟩)
      rw [ih _ hnd.2 h]
      exact loc _ _ e (frame m e0 e.1 hne)

/-- The value of a key after a loop over a map without repeated key. -/
theorem foldl_find {V A : Type} (step : GoMap V → String × A → GoMap V)
    (frame : ∀ m e k, e.1 ≠ k → GoMap.find (step m e) k = GoMap.find m k)
    (loc : ∀ m m' e, GoMap.find m e.1 = GoMap.find m' e.1 →
      GoMap.find (step m e) e.1 = GoMap.find (step m' e) e.1)
    (l : List (String × A)) (m : GoMap V) (k : String) (hnd : (GoMap.keys l).Nodup) :
    GoMap.find (l.foldl step m) k
      = match GoMap.find l k with
        | none => GoMap.find m k
        | some a => GoMap.find (step m (k, a)) k := by
  cases hf : GoMap.find l k with
  | none =>
    exact foldl_find_of_not_mem step frame l m k ((GoMap.find_eq_none_iff l k).1 hf)
  | some a =>
    exact foldl_find_of_mem step frame loc l m (k, a) hnd (GoMap.mem_of_find l k a hf)

/-! ## Columns written by a loop of `putColumn` -/

theorem putColumn_frame (cols : GoMap String) (col : String × String) (k : String)
    (h : col.1 ≠ k) : GoMap.find (putColumn cols col) k = GoMap.find cols k :=
  GoMap.find_put_ne cols col.2 h

theorem putColumn_loc (cols other : GoMap String) (col : String × String)
    (_ : GoMap.find cols col.1 = GoMap.find other col.1) :
    GoMap.find (putColumn cols col) col.1 = GoMap.find (putColumn other col) col.1 := by
  simp [putColumn, GoMap.find_put_self]

theorem find_putColumns (es : List (String × String)) (cols : GoMap String) (k : String)
    (hnd : (GoMap.keys es).Nodup) :
    GoMap.find (es.foldl putColumn cols) k
      = match GoMap.find es k with
        | some ty => some ty
        | none => GoMap.find cols k := by
  cases hf : GoMap.find es k with
  | none =>
    exact foldl_find_of_not_mem putColumn putColumn_frame es cols k
      ((GoMap.find_eq_none_iff es k).1 hf)
  | some ty =>
    have hmem := GoMap.mem_of_find es k ty hf
    have := foldl_find_of_mem putColumn putColumn_frame putColumn_loc es cols (k, ty) hnd hmem
    simpa [putColumn, GoMap.find_put_self] using this

theorem keys_filter_nodup (es : List (String × String)) (p : String × String → Bool)
    (hnd : (GoMap.keys es).Nodup) : (GoMap.keys (es.filter p)).Nodup := by
  unfold GoMap.keys at *
  exact List.Nodup.sublist (List.Sublist.map _ (List.filter_sublist es)) hnd

theorem find_filter (es : List (String × String)) (p : String × String → Bool) (k : String)
    (hnd : (GoMap.keys es).Nodup) :
    GoMap.find (es.filter p) k
      = match GoMap.find es k with
        | some ty => if p (k, ty) then some ty else none
        | none => none := by
  induction es with
  | nil => simp [GoMap.find]
  | cons e es ih =>
    obtain ⟨a, b⟩ := e
    simp only [GoMap.keys, List.map_cons, List.nodup_cons] at hnd
    have ih' := ih hnd.2
    by_cases hk : a = k
    · subst hk
      have hnone : GoMap.find es a = none := (GoMap.find_eq_none_iff es a).2 hnd.1
      by_cases hp : p (a, b) = true
      · simp [List.filter_cons, hp, GoMap.find]
      · simp [List.filter_cons, hp, GoMap.find, ih', hnone]
    · by_cases hp : p (a, b) = true
      · simp [List.filter_cons, hp, GoMap.find, hk, ih']
      · simp [List.filter_cons, hp, GoMap.find, hk, ih']

theorem find_filter_isNew (es : List (String × String)) (currentColumnsMap : ColumnMap)
    (k : String) (h : columnTypeOf currentColumnsMap k ≠ none) :
    GoMap.find (es.filter (isNewColumn currentColumnsMap)) k = none := by
  induction es with
  | nil => simp [GoMap.find]
  | cons e es ih =>
    by_cases hp : isNewColumn currentColumnsMap e = true
    · have hk : ¬ e.1 = k := by
        intro hk
        rw [isNewColumn, hk] at hp
        cases hc : columnTypeOf currentColumnsMap k with
        | none => exact h hc
        | some ty => simp [hc] at hp
      simp [List.filter_cons, hp, GoMap.find, hk, ih]
    · simp [List.filter_cons, hp, ih]

/-! ## The fields of the diff, entry by entry -/

theorem copyTableIn_frame (updated : SchemaT) (tbl : String × ColumnMap) (k : String)
    (h : tbl.1 ≠ k) : GoMap.find (copyTableIn updated tbl) k = GoMap.find updated k :=
  GoMap.find_put_ne updated _ h

theorem copyTableIn_loc (updated other : SchemaT) (tbl : String × ColumnMap)
    (_ : GoMap.find updated tbl.1 = GoMap.find other tbl.1) :
    GoMap.find (copyTableIn updated tbl) tbl.1 = GoMap.find (copyTableIn other tbl) tbl.1 := by
  simp [copyTableIn, GoMap.find_put_self]

theorem columnMapsIn_frame (currentSchema : SchemaT) (columnMaps : SchemaT)
    (tbl : String × ColumnMap) (k : String) (h : tbl.1 ≠ k) :
    GoMap.find (columnMapsIn currentSchema columnMaps tbl) k = GoMap.find columnMaps k :=
  GoMap.find_put_ne columnMaps _ h

theorem columnMapsIn_loc (currentSchema : SchemaT) (columnMaps other : SchemaT)
    (tbl : String × ColumnMap)
    (_ : GoMap.find columnMaps tbl.1 = GoMap.find other tbl.1) :
    GoMap.find (columnMapsIn currentSchema columnMaps tbl) tbl.1
      = GoMap.find (columnMapsIn currentSchema other tbl) tbl.1 := by
  simp [columnMapsIn, GoMap.find_put_self]

theorem updatedIn_frame (currentSchema : SchemaT) (updated : SchemaT)
    (tbl : String × ColumnMap) (k : String) (h : tbl.1 ≠ k) :
    GoMap.find (updatedIn currentSchema updated tbl) k = GoMap.find updated k :=
  GoMap.find_put_ne updated _ h

theorem updatedIn_loc (currentSchema : SchemaT) (updated other : SchemaT)
    (tbl : String × ColumnMap)
    (h : GoMap.find updated tbl.1 = GoMap.find other tbl.1) :
    GoMap.find (updatedIn currentSchema updated tbl) tbl.1
      = GoMap.find (updatedIn currentSchema other tbl) tbl.1 := by
  simp [updatedIn, GoMap.find_put_self, tableOf, h]

theorem appendColumns_frame (altered : GoMap (List String)) (tableName : String)
    (names : List String) (k : String) (h : tableName ≠ k) :
    GoMap.find (appendColumns altered tableName names) k = GoMap.find altered k := by
  cases names with
  | nil => rfl
  | cons n ns => simp [appendColumns, GoMap.find_put_ne _ _ h]

theorem appendColumns_loc (altered other : GoMap (List String)) (tableName : String)
    (names : List String)
    (h : GoMap.find altered tableName = GoMap.find other tableName) :
    GoMap.find (appendColumns altered tableName names) tableName
      = GoMap.find (appendColumns other tableName names) tableName := by
  cases names with
  | nil => exact h
  | cons n ns => simp [appendColumns, GoMap.find_put_self, h]

theorem alteredIn_frame (currentSchema : SchemaT) (altered : GoMap (List String))
    (tbl : String × ColumnMap) (k : String) (h : tbl.1 ≠ k) :
    GoMap.find (alteredIn currentSchema altered tbl) k = GoMap.find altered k := by
  unfold alteredIn
  cases GoMap.find currentSchema tbl.1 with
  | none => rfl
  | some currentColumnsMap => exact appendColumns_frame _ _ _ _ h

theorem alteredIn_loc (currentSchema : SchemaT) (altered other : GoMap (List String))
    (tbl : String × ColumnMap)
    (h : GoMap.find altered tbl.1 = GoMap.find other tbl.1) :
    GoMap.find (alteredIn currentSchema altered tbl) tbl.1
      = GoMap.find (alteredIn currentSchema other tbl) tbl.1 := by
  unfold alteredIn
  cases GoMap.find currentSchema tbl.1 with
  | none => exact h
  | some currentColumnsMap => exact appendColumns_loc _ _ _ _ h

theorem columnTypeOf_eq_find (cm : ColumnMap) (k : String) :
    columnTypeOf cm k = GoMap.find (rangeColumns cm) k := by
  cases cm <;> simp [columnTypeOf, rangeColumns, GoMap.find]

theorem typeOf_of_find {schema : SchemaT} {tableName : String} {cm : ColumnMap}
    (h : GoMap.find schema tableName = some cm) (k : String) :
    typeOf schema tableName k = columnTypeOf cm k := by
  simp [typeOf, tableOf, h]

theorem typeOf_of_find_none {schema : SchemaT} {tableName : String}
    (h : GoMap.find schema tableName = none) (k : String) :
    typeOf schema tableName k = none := by
  simp [typeOf, tableOf, h, columnTypeOf]

theorem find_of_typeOf {schema : SchemaT} {tableName k ty : String}
    (h : typeOf schema tableName k = some ty) :
    ∃ cm, GoMap.find schema tableName = some cm ∧ columnTypeOf cm k = some ty := by
  cases hf : GoMap.find schema tableName with
  | none => rw [typeOf_of_find_none hf] at h; cases h
  | some cm => exact ⟨cm, rfl, by rw [← typeOf_of_find hf]; exact h⟩

theorem SchemaWF.columns {schema : SchemaT} (h : SchemaWF schema) {tableName : String}
    {cm : ColumnMap} (hf : GoMap.find schema tableName = some cm) :
    (GoMap.keys (rangeColumns cm)).Nodup :=
  h.2 (tableName, cm) (GoMap.mem_of_find schema tableName cm hf)

theorem find_copied (currentSchema updated : SchemaT) (tableName : String)
    (hnd : (GoMap.keys currentSchema).Nodup) :
    GoMap.find (currentSchema.foldl copyTableIn updated) tableName
      = match GoMap.find currentSchema tableName with
        | none => GoMap.find updated tableName
        | some cm => some (some ((rangeColumns cm).foldl putColumn [])) := by
  rw [foldl_find copyTableIn copyTableIn_frame copyTableIn_loc currentSchema updated
    tableName hnd]
  cases GoMap.find currentSchema tableName with
  | none => rfl
  | some cm => simp [copyTableIn, GoMap.find_put_self]

theorem typeOf_copied (currentSchema : SchemaT) (tableName k : String)
    (hwf : SchemaWF currentSchema) :
    typeOf (currentSchema.foldl copyTableIn []) tableName k
      = typeOf currentSchema tableName k := by
  have hfind := find_copied currentSchema [] tableName hwf.1
  cases hf : GoMap.find currentSchema tableName with
  | none =>
    rw [hf] at hfind
    rw [typeOf_of_find_none hf, typeOf_of_find_none (by simpa [GoMap.find] using hfind)]
  | some cm =>
    rw [hf] at hfind
    rw [typeOf_of_find hf, typeOf_of_find hfind, columnTypeOf_eq_find cm]
    simp only [columnTypeOf]
    rw [find_putColumns _ _ _ (hwf.columns hf)]
    cases GoMap.find (rangeColumns cm) k <;> simp [GoMap.find]

theorem find_updated (currentSchema uploadSchema updated : SchemaT) (tableName : String)
    (hnd : (GoMap.keys uploadSchema).Nodup) :
    GoMap.find (uploadSchema.foldl (updatedIn currentSchema) updated) tableName
      = match GoMap.find uploadSchema tableName with
        | none => GoMap.find updated tableName
        | some uploadColumnMap =>
          some (match GoMap.find currentSchema tableName with
            | none => uploadColumnMap
            | some currentColumnsMap =>
              some (((rangeColumns uploadColumnMap).filter
                (isNewColumn currentColumnsMap)).foldl putColumn
                  (rangeColumns (tableOf updated tableName)))) := by
  rw [foldl_find (updatedIn currentSchema) (updatedIn_frame currentSchema)
    (updatedIn_loc currentSchema) uploadSchema updated tableName hnd]
  cases GoMap.find uploadSchema tableName with
  | none => rfl
  | some uploadColumnMap => simp [updatedIn, GoMap.find_put_self]

theorem find_columnMaps (currentSchema uploadSchema columnMaps : SchemaT)
    (tableName : String) (hnd : (GoMap.keys uploadSchema).Nodup) :
    GoMap.find (uploadSchema.foldl (columnMapsIn currentSchema) columnMaps) tableName
      = match GoMap.find uploadSchema tableName with
        | none => GoMap.find columnMaps tableName
        | some uploadColumnMap =>
          some (match GoMap.find currentSchema tableName with
            | none => uploadColumnMap
            | some currentColumnsMap =>
              some (((rangeColumns uploadColumnMap).filter
                (isNewColumn currentColumnsMap)).foldl putColumn [])) := by
  rw [foldl_find (columnMapsIn currentSchema) (columnMapsIn_frame currentSchema)
    (columnMapsIn_loc currentSchema) uploadSchema columnMaps tableName hnd]
  cases GoMap.find uploadSchema tableName with
  | none => rfl
  | some uploadColumnMap => simp [columnMapsIn, GoMap.find_put_self]

theorem find_altered (currentSchema uploadSchema : SchemaT) (tableName : String)
    (hnd : (GoMap.keys uploadSchema).Nodup) :
    GoMap.find (uploadSchema.foldl (alteredIn currentSchema) []) tableName
      = match GoMap.find uploadSchema tableName, GoMap.find currentSchema tableName with
        | some uploadColumnMap, some currentColumnsMap =>
          match ((rangeColumns uploadColumnMap).filter
              (isWidening currentColumnsMap)).map Prod.fst with
          | [] => none
          | n :: ns => some (n :: ns)
        | _, _ => none := by
  rw [foldl_find (alteredIn currentSchema) (alteredIn_frame currentSchema)
    (alteredIn_loc currentSchema) uploadSchema [] tableName hnd]
  cases GoMap.find uploadSchema tableName with
  | none => simp [GoMap.find]
  | some uploadColumnMap =>
    cases hc : GoMap.find currentSchema tableName with
    | none => simp [alteredIn, hc, GoMap.find]
    | some currentColumnsMap =>
      simp only [alteredIn, hc]
      cases ((rangeColumns uploadColumnMap).filter
          (isWidening currentColumnsMap)).map Prod.fst with
      | nil => simp [appendColumns, GoMap.find]
      | cons n ns => simp [appendColumns, GoMap.find_put_self, GoMap.find]

/-- A column of `currentSchema` keeps its type in `UpdatedSchema` through the loop over
`uploadSchema`. -/
theorem typeOf_updated_of_current (currentSchema uploadSchema updated : SchemaT)
    (tableName k ty : String) (hcur : typeOf currentSchema tableName k = some ty)
    (h : typeOf updated tableName k = some ty) :
    typeOf (uploadSchema.foldl (updatedIn currentSchema) updated) tableName k = some ty := by
  induction uploadSchema generalizing updated with
  | nil => exact h
  | cons tbl l ih =>
    rw [List.foldl_cons]
    apply ih
    unfold updatedIn
    rw [typeOf_put]
    by_cases hk : tbl.1 = tableName
    · rw [if_pos hk]
      obtain ⟨cm, hfind, hcol⟩ := find_of_typeOf hcur
      rw [hk, hfind]
      simp only [columnTypeOf]
      rw [foldl_find_of_not_mem putColumn putColumn_frame _ _ k
        ((GoMap.find_eq_none_iff _ k).1 (find_filter_isNew _ cm k (by simp [hcol]))),
        ← columnTypeOf_eq_find]
      exact h
    · rw [if_neg hk]
      exact h

theorem mem_tables (currentSchema : SchemaT) (l : SchemaT) (tables : List String)
    (tableName : String) :
    tableName ∈ l.foldl (tablesIn currentSchema) tables
      ↔ tableName ∈ tables
        ∨ (GoMap.find l tableName ≠ none ∧ GoMap.find currentSchema tableName = none) := by
  induction l generalizing tables with
  | nil => simp [GoMap.find]
  | cons e l ih =>
    rw [List.foldl_cons, ih]
    by_cases hk : e.1 = tableName
    · subst hk
      cases hc : GoMap.find currentSchema e.1 with
      | none => simp [tablesIn, hc, GoMap.find]
      | some cm => simp [tablesIn, hc, GoMap.find]
    · have hk' : ¬ tableName = e.1 := fun x => hk x.symm
      cases hc : GoMap.find currentSchema e.1 with
      | none => simp [tablesIn, hc, GoMap.find, hk, hk']
      | some cm => simp [tablesIn, hc, GoMap.find, hk]

theorem alteredColumns_diffAll (currentSchema uploadSchema : SchemaT) (tableName : String)
    (hnd : (GoMap.keys uploadSchema).Nodup) :
    alteredColumns (diffAll currentSchema uploadSchema) tableName
      = match GoMap.find uploadSchema tableName, GoMap.find currentSchema tableName with
        | some uploadColumnMap, some currentColumnsMap =>
          ((rangeColumns uploadColumnMap).filter (isWidening currentColumnsMap)).map Prod.fst
        | _, _ => [] := by
  unfold alteredColumns
  simp only [diffAll]
  rw [find_altered currentSchema uploadSchema tableName hnd]
  cases GoMap.find uploadSchema tableName with
  | none => rfl
  | some uploadColumnMap =>
    cases GoMap.find currentSchema tableName with
    | none => rfl
    | some currentColumnsMap =>
      simp only
      cases ((rangeColumns uploadColumnMap).filter
          (isWidening currentColumnsMap)).map Prod.fst <;> rfl

theorem mem_widened (es : List (String × String)) (currentColumnsMap : ColumnMap)
    (k : String) (hnd : (GoMap.keys es).Nodup) :
    k ∈ (es.filter (isWidening currentColumnsMap)).map Prod.fst
      ↔ GoMap.find es k = some "text" ∧ columnTypeOf currentColumnsMap k = some "string" := by
  constructor
  · intro h
    obtain ⟨e, he, hk⟩ := List.mem_map.1 h
    obtain ⟨hmem, hw⟩ := List.mem_filter.1 he
    obtain ⟨a, b⟩ := e
    simp only at hk
    subst hk
    simp only [isWidening, decide_eq_true_eq] at hw
    refine ⟨?_, hw.2⟩
    rw [GoMap.find_of_mem es a b hnd hmem, hw.1]
  · rintro ⟨hf, hc⟩
    refine List.mem_map.2 ⟨(k, "text"), List.mem_filter.2 ⟨GoMap.mem_of_find es k _ hf, ?_⟩, rfl⟩
    simp [isWidening, hc]

theorem changes_of_new_table (currentSchema uploadSchema : SchemaT) (tableName : String)
    (hup : GoMap.find uploadSchema tableName ≠ none)
    (hcur : GoMap.find currentSchema tableName = none) :
    uploadSchema.any (changes currentSchema) = true := by
  cases hf : GoMap.find uploadSchema tableName with
  | none => exact absurd hf hup
  | some cm =>
    refine List.any_eq_true.2 ⟨(tableName, cm), GoMap.mem_of_find _ _ _ hf, ?_⟩
    simp [changes, hcur]

theorem changes_of_new_column (currentSchema uploadSchema : SchemaT) (tableName k : String)
    (currentColumnsMap uploadColumnMap : ColumnMap)
    (hcur : GoMap.find currentSchema tableName = some currentColumnsMap)
    (hup : GoMap.find uploadSchema tableName = some uploadColumnMap)
    (hnew : columnTypeOf currentColumnsMap k = none)
    (hcol : columnTypeOf uploadColumnMap k ≠ none) :
    uploadSchema.any (changes currentSchema) = true := by
  refine List.any_eq_true.2 ⟨(tableName, uploadColumnMap), GoMap.mem_of_find _ _ _ hup, ?_⟩
  cases hf : columnTypeOf uploadColumnMap k with
  | none => exact absurd hf hcol
  | some ty =>
    rw [columnTypeOf_eq_find] at hf
    simp only [changes, hcur]
    refine List.any_eq_true.2 ⟨(k, ty), GoMap.mem_of_find _ _ _ hf, ?_⟩
    simp [isNewColumn, hnew]

/-! ## The type of one column through `mergeSchema` -/

/-- The value of a key after a loop, as the fold of what its entries do to it. -/
theorem foldl_find_filter {V A : Type} (step : GoMap V → String × A → GoMap V) (k : String)
    (g : String × A → Option V → Option V)
    (frame : ∀ m e, e.1 ≠ k → GoMap.find (step m e) k = GoMap.find m k)
    (eff : ∀ m e, e.1 = k → GoMap.find (step m e) k = g e (GoMap.find m k))
    (l : List (String × A)) (m : GoMap V) :
    GoMap.find (l.foldl step m) k
      = (l.filter (fun e => e.1 = k)).foldl (fun v e => g e v) (GoMap.find m k) := by
  induction l generalizing m with
  | nil => rfl
  | cons e l ih =>
    rw [List.foldl_cons, ih]
    by_cases hk : e.1 = k
    · simp [List.filter_cons, hk, eff m e hk]
    · simp [List.filter_cons, hk, frame m e hk]

theorem mergeColumnIn_frame (currentSchema : SchemaT) (tableName : String)
    (cols : GoMap String) (col : String × String) (k : String) (h : col.1 ≠ k) :
    GoMap.find (mergeColumnIn currentSchema tableName cols col) k = GoMap.find cols k := by
  unfold mergeColumnIn
  cases typeOf currentSchema tableName col.1 with
  | some columnTypeInDB => exact GoMap.find_put_ne cols _ h
  | none =>
    cases GoMap.find cols col.1 with
    | none => exact GoMap.find_put_ne cols _ h
    | some ty => rfl

theorem mergeColumnIn_find (currentSchema : SchemaT) (tableName : String)
    (cols : GoMap String) (col : String × String) :
    GoMap.find (mergeColumnIn currentSchema tableName cols col) col.1
      = offer (typeOf currentSchema tableName col.1) (GoMap.find cols col.1) col.2 := by
  unfold mergeColumnIn offer
  cases typeOf currentSchema tableName col.1 with
  | some columnTypeInDB => simp [GoMap.find_put_self]
  | none =>
    cases hf : GoMap.find cols col.1 with
    | none => simp [GoMap.find_put_self]
    | some ty => simp [hf]

theorem find_mergeColumns (currentSchema : SchemaT) (tableName k : String)
    (es : List (String × String)) (cols : GoMap String) :
    GoMap.find (es.foldl (mergeColumnIn currentSchema tableName) cols) k
      = (((es.filter (fun col => col.1 = k)).map Prod.snd).foldl
          (offer (typeOf currentSchema tableName k)) (GoMap.find cols k)) := by
  rw [foldl_find_filter (mergeColumnIn currentSchema tableName) k
    (fun col v => offer (typeOf currentSchema tableName k) v col.2)
    (fun m e h => mergeColumnIn_frame currentSchema tableName m e k h)
    (fun m e h => by rw [← h]; exact mergeColumnIn_find currentSchema tableName m e),
    List.foldl_map]

theorem typeOf_mergeTableIn (currentSchema merged : SchemaT) (tbl : String × ColumnMap)
    (tableName k : String) :
    typeOf (mergeTableIn currentSchema merged tbl) tableName k
      = ((if tbl.1 = tableName then
            ((rangeColumns tbl.2).filter (fun col => col.1 = k)).map Prod.snd
          else []).foldl (offer (typeOf currentSchema tableName k))
            (typeOf merged tableName k)) := by
  unfold mergeTableIn
  rw [typeOf_put]
  by_cases h : tbl.1 = tableName
  · simp only [h, if_true, columnTypeOf]
    rw [find_mergeColumns, ← columnTypeOf_eq_find]
    rfl
  · simp [h]

theorem typeOf_mergeStagingIn (currentSchema : SchemaT) (schema merged : SchemaT)
    (tableName k : String) :
    typeOf (mergeStagingIn currentSchema merged schema) tableName k
      = (offersIn tableName k schema).foldl (offer (typeOf currentSchema tableName k))
          (typeOf merged tableName k) := by
  unfold mergeStagingIn
  induction schema generalizing merged with
  | nil => rfl
  | cons tbl schema ih =>
    rw [List.foldl_cons, ih, typeOf_mergeTableIn, offersIn, List.foldl_append]

theorem typeOf_mergeAll (currentSchema : SchemaT) (schemaList : List SchemaT)
    (merged : SchemaT) (tableName k : String) :
    typeOf (mergeAll currentSchema schemaList merged) tableName k
      = (offersOf tableName k schemaList).foldl (offer (typeOf currentSchema tableName k))
          (typeOf merged tableName k) := by
  unfold mergeAll
  induction schemaList generalizing merged with
  | nil => rfl
  | cons schema schemaList ih =>
    rw [List.foldl_cons, ih, typeOf_mergeStagingIn, offersOf, List.foldl_append]

/-- Without a type in `currentSchema`, the first offer is kept. -/
theorem foldl_offer_none (tys : List String) (v : Option String) :
    tys.foldl (offer none) v
      = match v with
        | some ty => some ty
        | none => tys.head? := by
  induction tys generalizing v with
  | nil => cases v <;> rfl
  | cons ty tys ih =>
    rw [List.foldl_cons, ih]
    cases v <;> rfl

/-- With a type in `currentSchema`, the last offer decides. -/
theorem foldl_offer_some (columnTypeInDB : String) (tys : List String)
    (v w : Option String) (h : tys ≠ []) :
    tys.foldl (offer (some columnTypeInDB)) v = tys.foldl (offer (some columnTypeInDB)) w := by
  cases tys with
  | nil => exact absurd rfl h
  | cons ty tys => rfl

theorem foldl_offer_idem (inDB : Option String) (tys : List String) (v : Option String) :
    tys.foldl (offer inDB) (tys.foldl (offer inDB) v) = tys.foldl (offer inDB) v := by
  cases inDB with
  | none =>
    rw [foldl_offer_none, foldl_offer_none]
    cases v with
    | some ty => rfl
    | none => cases tys.head? <;> rfl
  | some columnTypeInDB =>
    by_cases h : tys = []
    · subst h; rfl
    · exact foldl_offer_some columnTypeInDB tys _ _ h

theorem offersIn_of_not_mem (schema : SchemaT) (tableName k : String)
    (h : GoMap.find schema tableName = none) : offersIn tableName k schema = [] := by
  induction schema with
  | nil => rfl
  | cons tbl schema ih =>
    by_cases hk : tbl.1 = tableName
    · simp [GoMap.find, hk] at h
    · simp only [GoMap.find, hk, if_false] at h
      simp [offersIn, hk, ih h]

theorem offers_of_columns (es : List (String × String)) (k : String)
    (hnd : (GoMap.keys es).Nodup) :
    ((es.filter (fun col => col.1 = k)).map Prod.snd) = (GoMap.find es k).toList := by
  induction es with
  | nil => rfl
  | cons e es ih =>
    simp only [GoMap.keys, List.map_cons, List.nodup_cons] at hnd
    have ih' := ih hnd.2
    by_cases hk : e.1 = k
    · have hnone : GoMap.find es k = none := by
        rw [GoMap.find_eq_none_iff, ← hk]
        exact hnd.1
      rw [hnone] at ih'
      simp [List.filter_cons, hk, GoMap.find, ih']
    · simp [List.filter_cons, hk, GoMap.find, ih']

/-- A well-formed staging schema offers a column the type it holds for it, once. -/
theorem offersIn_of_wf (schema : SchemaT) (tableName k : String) (hwf : SchemaWF schema) :
    offersIn tableName k schema = (typeOf schema tableName k).toList := by
  induction schema with
  | nil => rfl
  | cons tbl schema ih =>
    have hnd := hwf.1
    simp only [GoMap.keys, List.map_cons, List.nodup_cons] at hnd
    have hwf' : SchemaWF schema :=
      ⟨hnd.2, fun e he => hwf.2 e (List.mem_cons_of_mem _ he)⟩
    by_cases hk : tbl.1 = tableName
    · have hnone : GoMap.find schema tableName = none := by
        rw [GoMap.find_eq_none_iff, ← hk]
        exact hnd.1
      have htype : typeOf (tbl :: schema) tableName k = columnTypeOf tbl.2 k :=
        typeOf_of_find (by simp [GoMap.find, hk]) k
      rw [offersIn, offersIn_of_not_mem schema tableName k hnone, htype,
        columnTypeOf_eq_find, if_pos hk,
        offers_of_columns _ k (hwf.2 tbl (List.mem_cons_self _ _))]
      simp
    · have htype : typeOf (tbl :: schema) tableName k = typeOf schema tableName k := by
        simp [typeOf, tableOf, GoMap.find, hk]
      rw [offersIn, if_neg hk, htype, ih hwf']
      rfl

theorem head_offersOf (schemaList : List SchemaT) (tableName k : String)
    (hwf : ∀ schema ∈ schemaList, SchemaWF schema) :
    (offersOf tableName k schemaList).head?
      = schemaList.findSome? (fun schema => typeOf schema tableName k) := by
  induction schemaList with
  | nil => rfl
  | cons schema schemaList ih =>
    have ih' := ih (fun x hx => hwf x (List.mem_cons_of_mem _ hx))
    rw [offersOf, offersIn_of_wf schema tableName k (hwf schema (List.mem_cons_self _ _)),
      List.findSome?_cons]
    cases typeOf schema tableName k with
    | none => simpa using ih'
    | some ty => simp

/-! ## Merging again what is already merged -/

theorem GoMap.keys_put {V : Type} (m : GoMap V) (k : String) (v : V) :
    GoMap.keys (GoMap.put m k v)
      = if k ∈ GoMap.keys m then GoMap.keys m else GoMap.keys m ++ [k] := by
  induction m with
  | nil => simp [GoMap.put, GoMap.keys]
  | cons e m ih =>
    simp only [GoMap.keys] at ih
    by_cases h : e.1 = k
    · simp [GoMap.put, GoMap.keys, h]
    · have h' : ¬ k = e.1 := fun x => h x.symm
      by_cases hm : k ∈ List.map Prod.fst m
      · simp [GoMap.put, GoMap.keys, h, ih, hm]
      · simp [GoMap.put, GoMap.keys, h, h', ih, hm]

theorem GoMap.mem_keys_put {V : Type} (m : GoMap V) (k k' : String) (v : V) :
    k' ∈ GoMap.keys (GoMap.put m k v) ↔ k' = k ∨ k' ∈ GoMap.keys m := by
  rw [GoMap.keys_put]
  by_cases h : k ∈ GoMap.keys m
  · rw [if_pos h]
    constructor
    · exact Or.inr
    · rintro (h' | h')
      · rw [h']; exact h
      · exact h'
  · rw [if_neg h, List.mem_append, List.mem_singleton]
    exact Or.comm

theorem GoMap.nodup_keys_put {V : Type} (m : GoMap V) (k : String) (v : V)
    (h : (GoMap.keys m).Nodup) : (GoMap.keys (GoMap.put m k v)).Nodup := by
  rw [GoMap.keys_put]
  by_cases hk : k ∈ GoMap.keys m
  · rw [if_pos hk]; exact h
  · rw [if_neg hk]
    refine List.Nodup.append h (List.nodup_singleton k) ?_
    intro a ha hak
    rw [List.mem_singleton] at hak
    exact hk (hak ▸ ha)

theorem GoMap.mem_put {V : Type} (m : GoMap V) (k : String) (v : V) (e : String × V)
    (h : e ∈ GoMap.put m k v) : e = (k, v) ∨ e ∈ m := by
  induction m with
  | nil => simpa [GoMap.put] using h
  | cons e0 m ih =>
    by_cases hk : e0.1 = k
    · simp only [GoMap.put, hk, if_true, List.mem_cons] at h
      rcases h with h | h
      · exact Or.inl h
      · exact Or.inr (List.mem_cons_of_mem _ h)
    · simp only [GoMap.put, hk, if_false, List.mem_cons] at h
      rcases h with h | h
      · exact Or.inr (by simp [h])
      · rcases ih h with h' | h'
        · exact Or.inl h'
        · exact Or.inr (List.mem_cons_of_mem _ h')

/-- Two maps with the same keys in the same order, none repeated, and the same value
under every key are equal. -/
theorem GoMap.ext {V : Type} (m m' : GoMap V) (hkeys : GoMap.keys m' = GoMap.keys m)
    (hnd : (GoMap.keys m).Nodup) (hfind : ∀ k, GoMap.find m' k = GoMap.find m k) :
    m' = m := by
  induction m generalizing m' with
  | nil => simpa [GoMap.keys] using hkeys
  | cons e m ih =>
    cases m' with
    | nil => simp [GoMap.keys] at hkeys
    | cons e' m' =>
      simp only [GoMap.keys, List.map_cons, List.cons.injEq] at hkeys
      simp only [GoMap.keys, List.map_cons, List.nodup_cons] at hnd
      have hval : e'.2 = e.2 := by
        have := hfind e.1
        simpa [GoMap.find, hkeys.1] using this
      have hrest : m' = m := by
        apply ih m' hkeys.2 hnd.2
        intro k
        by_cases hk : e.1 = k
        · have h1 : GoMap.find m k = none := by
            rw [GoMap.find_eq_none_iff, ← hk]; exact hnd.1
          have h2 : GoMap.find m' k = none := by
            rw [GoMap.find_eq_none_iff, GoMap.keys, hkeys.2, ← hk]; exact hnd.1
          rw [h1, h2]
        · have := hfind k
          simpa [GoMap.find, hkeys.1, hk] using this
      rw [hrest]
      congr 1
      exact Prod.ext hkeys.1 hval

theorem keys_shape (schema : SchemaT) : GoMap.keys (shape schema) = GoMap.keys schema := by
  simp [shape, GoMap.keys, Function.comp_def]

theorem find_shape (schema : SchemaT) (tableName : String) :
    GoMap.find (shape schema) tableName
      = (GoMap.find schema tableName).map (fun cm => cm.map GoMap.keys) := by
  induction schema with
  | nil => rfl
  | cons e schema ih =>
    by_cases hk : e.1 = tableName
    · simp [shape, GoMap.find, hk]
    · simp only [shape] at ih
      simp [shape, GoMap.find, hk, ih]

/-- Two schemas with the same shape and the same type for every column are equal. -/
theorem schema_ext (merged other : SchemaT) (hwf : SchemaWF merged)
    (hshape : shape other = shape merged)
    (htype : ∀ tableName k, typeOf other tableName k = typeOf merged tableName k) :
    other = merged := by
  have hkeys : GoMap.keys other = GoMap.keys merged := by
    rw [← keys_shape, ← keys_shape, hshape]
  apply GoMap.ext merged other hkeys hwf.1
  intro tableName
  have hfs : (GoMap.find other tableName).map (fun cm => cm.map GoMap.keys)
      = (GoMap.find merged tableName).map (fun cm => cm.map GoMap.keys) := by
    rw [← find_shape, ← find_shape, hshape]
  cases hm : GoMap.find merged tableName with
  | none =>
    rw [hm] at hfs
    cases ho : GoMap.find other tableName with
    | none => rfl
    | some cm => rw [ho] at hfs; simp at hfs
  | some cm =>
    rw [hm] at hfs
    cases ho : GoMap.find other tableName with
    | none => rw [ho] at hfs; simp at hfs
    | some cm' =>
      rw [ho] at hfs
      simp only [Option.map_some', Option.some.injEq] at hfs
      cases cm with
      | none =>
        cases cm' with
        | none => rfl
        | some cols' => simp at hfs
      | some cols =>
        cases cm' with
        | none => simp at hfs
        | some cols' =>
          simp only [Option.map_some', Option.some.injEq] at hfs
          have hcols : cols' = cols := by
            apply GoMap.ext cols cols' hfs (hwf.columns hm)
            intro k
            have := htype tableName k
            rw [typeOf_of_find ho, typeOf_of_find hm] at this
            exact this
          rw [hcols]

theorem mem_keys_mergeColumnIn (currentSchema : SchemaT) (tableName : String)
    (cols : GoMap String) (col : String × String) (k : String) :
    k ∈ GoMap.keys (mergeColumnIn currentSchema tableName cols col)
      ↔ k = col.1 ∨ k ∈ GoMap.keys cols := by
  unfold mergeColumnIn
  cases typeOf currentSchema tableName col.1 with
  | some columnTypeInDB => exact GoMap.mem_keys_put cols col.1 k _
  | none =>
    cases hf : GoMap.find cols col.1 with
    | none => exact GoMap.mem_keys_put cols col.1 k _
    | some ty =>
      have hmem : col.1 ∈ GoMap.keys cols := by
        rw [← GoMap.find_isSome_iff, hf]; rfl
      simp only
      constructor
      · exact Or.inr
      · rintro (h | h)
        · rw [h]; exact hmem
        · exact h

theorem keys_mergeColumnIn (currentSchema : SchemaT) (tableName : String)
    (cols : GoMap String) (col : String × String) (h : col.1 ∈ GoMap.keys cols) :
    GoMap.keys (mergeColumnIn currentSchema tableName cols col) = GoMap.keys cols := by
  unfold mergeColumnIn
  cases typeOf currentSchema tableName col.1 with
  | some columnTypeInDB => rw [GoMap.keys_put, if_pos h]
  | none =>
    cases GoMap.find cols col.1 with
    | none => rw [GoMap.keys_put, if_pos h]
    | some ty => rfl

theorem nodup_mergeColumnIn (currentSchema : SchemaT) (tableName : String)
    (cols : GoMap String) (col : String × String) (h : (GoMap.keys cols).Nodup) :
    (GoMap.keys (mergeColumnIn currentSchema tableName cols col)).Nodup := by
  unfold mergeColumnIn
  cases typeOf currentSchema tableName col.1 with
  | some columnTypeInDB => exact GoMap.nodup_keys_put cols _ _ h
  | none =>
    cases GoMap.find cols col.1 with
    | none => exact GoMap.nodup_keys_put cols _ _ h
    | some ty => exact h

/-- What holds after its own step and is kept by every step holds, after the loop, of
every entry. -/
theorem foldl_sat {S A : Type} (step : S → A → S) (sat : A → S → Prop)
    (hb : ∀ s a, sat a (step s a)) (hc : ∀ s a b, sat a s → sat a (step s b))
    (l : List A) (s : S) : ∀ a ∈ l, sat a (l.foldl step s) := by
  have stable : ∀ (l : List A) (s : S) (a : A), sat a s → sat a (l.foldl step s) := by
    intro l
    induction l with
    | nil => intro s a h; exact h
    | cons e l ih => intro s a h; exact ih _ a (hc s a e h)
  induction l generalizing s with
  | nil => intro a ha; simp at ha
  | cons e l ih =>
    intro a ha
    rcases List.mem_cons.1 ha with h | h
    · rw [h]; exact stable l _ e (hb s e)
    · exact ih _ a h

/-- A view that no step changes once its entry is satisfied is unchanged by a loop over
satisfied entries. -/
theorem foldl_fixed {S A W : Type} (step : S → A → S) (sat : A → S → Prop) (view : S → W)
    (ha : ∀ s a, sat a s → view (step s a) = view s)
    (hc : ∀ s a b, sat a s → sat a (step s b))
    (l : List A) (s : S) (h : ∀ a ∈ l, sat a s) : view (l.foldl step s) = view s := by
  induction l generalizing s with
  | nil => rfl
  | cons e l ih =>
    rw [List.foldl_cons, ih (step s e) (fun a ha' => hc s a e (h a (List.mem_cons_of_mem _ ha'))),
      ha s e (h e (List.mem_cons_self _ _))]

theorem mem_keys_mergeColumns (currentSchema : SchemaT) (tableName : String)
    (es : List (String × String)) (cols : GoMap String) (k : String)
    (h : k ∈ GoMap.keys cols) :
    k ∈ GoMap.keys (es.foldl (mergeColumnIn currentSchema tableName) cols) := by
  induction es generalizing cols with
  | nil => exact h
  | cons col es ih =>
    exact ih _ ((mem_keys_mergeColumnIn currentSchema tableName cols col k).2 (Or.inr h))

theorem keys_mergeColumns (currentSchema : SchemaT) (tableName : String)
    (es : List (String × String)) (cols : GoMap String)
    (h : ∀ col ∈ es, col.1 ∈ GoMap.keys cols) :
    GoMap.keys (es.foldl (mergeColumnIn currentSchema tableName) cols) = GoMap.keys cols :=
  foldl_fixed (mergeColumnIn currentSchema tableName) (fun col cols => col.1 ∈ GoMap.keys cols)
    GoMap.keys (fun s a hs => keys_mergeColumnIn currentSchema tableName s a hs)
    (fun s a b hs => (mem_keys_mergeColumnIn currentSchema tableName s b a.1).2 (Or.inr hs))
    es cols h

theorem covered_mergeColumns (currentSchema : SchemaT) (tableName : String)
    (es : List (String × String)) (cols : GoMap String) :
    ∀ col ∈ es, col.1 ∈ GoMap.keys (es.foldl (mergeColumnIn currentSchema tableName) cols) :=
  foldl_sat (mergeColumnIn currentSchema tableName) (fun col cols => col.1 ∈ GoMap.keys cols)
    (fun s a => (mem_keys_mergeColumnIn currentSchema tableName s a a.1).2 (Or.inl rfl))
    (fun s a b hs => (mem_keys_mergeColumnIn currentSchema tableName s b a.1).2 (Or.inr hs))
    es cols

theorem nodup_mergeColumns (currentSchema : SchemaT) (tableName : String)
    (es : List (String × String)) (cols : GoMap String) (h : (GoMap.keys cols).Nodup) :
    (GoMap.keys (es.foldl (mergeColumnIn currentSchema tableName) cols)).Nodup := by
  induction es generalizing cols with
  | nil => exact h
  | cons col es ih => exact ih _ (nodup_mergeColumnIn currentSchema tableName cols col h)

theorem shape_put (merged : SchemaT) (tableName : String) (cols other : GoMap String)
    (hfind : GoMap.find merged tableName = some (some cols))
    (hkeys : GoMap.keys other = GoMap.keys cols) :
    shape (GoMap.put merged tableName (some other)) = shape merged := by
  induction merged with
  | nil => simp [GoMap.find] at hfind
  | cons e merged ih =>
    by_cases hk : e.1 = tableName
    · simp only [GoMap.find, hk, if_true, Option.some.injEq] at hfind
      simp [shape, GoMap.put, hk, hfind, hkeys]
    · simp only [GoMap.find, hk, if_false] at hfind
      simp only [shape] at ih
      simp [shape, GoMap.put, hk, ih hfind]

theorem covers_fixed (currentSchema merged : SchemaT) (tbl : String × ColumnMap)
    (h : Covers tbl merged) : shape (mergeTableIn currentSchema merged tbl) = shape merged := by
  obtain ⟨cols, hcols, hall⟩ := h
  unfold mergeTableIn
  apply shape_put merged tbl.1 cols _ (tableOf_find hcols)
  rw [hcols]
  exact keys_mergeColumns currentSchema tbl.1 _ cols hall

theorem covers_self (currentSchema merged : SchemaT) (tbl : String × ColumnMap) :
    Covers tbl (mergeTableIn currentSchema merged tbl) := by
  refine ⟨_, by rw [mergeTableIn, tableOf_put, if_pos rfl], ?_⟩
  exact covered_mergeColumns currentSchema tbl.1 _ _

theorem covers_stable (currentSchema merged : SchemaT) (tbl other : String × ColumnMap)
    (h : Covers tbl merged) : Covers tbl (mergeTableIn currentSchema merged other) := by
  obtain ⟨cols, hcols, hall⟩ := h
  by_cases hk : other.1 = tbl.1
  · refine ⟨_, by rw [mergeTableIn, tableOf_put, if_pos hk], ?_⟩
    intro col hcol
    apply mem_keys_mergeColumns
    rw [hk, hcols]
    exact hall col hcol
  · exact ⟨cols, by rw [mergeTableIn, tableOf_put, if_neg hk, hcols], hall⟩

theorem wf_mergeTableIn (currentSchema merged : SchemaT) (tbl : String × ColumnMap)
    (h : SchemaWF merged) : SchemaWF (mergeTableIn currentSchema merged tbl) := by
  refine ⟨GoMap.nodup_keys_put merged _ _ h.1, ?_⟩
  intro e he
  rcases GoMap.mem_put merged _ _ e he with he | he
  · rw [he]
    apply nodup_mergeColumns
    cases ht : tableOf merged tbl.1 with
    | none => simp [rangeColumns, GoMap.keys]
    | some cols => exact h.columns (tableOf_find ht)
  · exact h.2 e he

theorem mergeAll_flatten (currentSchema : SchemaT) (schemaList : List SchemaT)
    (merged : SchemaT) :
    mergeAll currentSchema schemaList merged
      = schemaList.flatten.foldl (mergeTableIn currentSchema) merged := by
  unfold mergeAll
  rw [List.foldl_flatten]
  rfl

theorem wf_mergeAll (currentSchema : SchemaT) (schemaList : List SchemaT)
    (merged : SchemaT) (h : SchemaWF merged) :
    SchemaWF (mergeAll currentSchema schemaList merged) := by
  rw [mergeAll_flatten]
  generalize schemaList.flatten = tbls
  induction tbls generalizing merged with
  | nil => exact h
  | cons tbl tbls ih => exact ih _ (wf_mergeTableIn currentSchema merged tbl h)

/-- Merging the same staging schemas into their own merge changes nothing. -/
theorem mergeAll_idem (currentSchema : SchemaT) (schemaList : List SchemaT)
    (merged : SchemaT) (h : SchemaWF merged) :
    mergeAll currentSchema schemaList (mergeAll currentSchema schemaList merged)
      = mergeAll currentSchema schemaList merged := by
  apply schema_ext _ _ (wf_mergeAll currentSchema schemaList merged h)
  · rw [mergeAll_flatten currentSchema schemaList (mergeAll currentSchema schemaList merged)]
    apply foldl_fixed (mergeTableIn currentSchema) Covers shape
      (fun s a hs => covers_fixed currentSchema s a hs)
      (fun s a b hs => covers_stable currentSchema s a b hs)
    rw [mergeAll_flatten]
    exact foldl_sat (mergeTableIn currentSchema) Covers
      (fun s a => covers_self currentSchema s a)
      (fun s a b hs => covers_stable currentSchema s a b hs) _ merged
  · intro tableName k
    rw [typeOf_mergeAll, typeOf_mergeAll, foldl_offer_idem]

/-! ## Pages -/

theorem mergeAll_append (currentSchema : SchemaT) (l1 l2 : List SchemaT) (merged : SchemaT) :
    mergeAll currentSchema (l1 ++ l2) merged
      = mergeAll currentSchema l2 (mergeAll currentSchema l1 merged) := by
  simp [mergeAll, List.foldl_append]

theorem pageLoop_eq (pageSize : Nat) (schemaInLocalDB : SchemaT)
    (stagingFiles : List SchemaT) (hp : pageSize ≥ 1) (fuel count : Nat)
    (consolidatedSchema : SchemaT) (hfuel : fuel > stagingFiles.length - count) :
    pageLoop pageSize schemaInLocalDB stagingFiles fuel count consolidatedSchema
      = some (mergeAll schemaInLocalDB (stagingFiles.drop count) consolidatedSchema) := by
  induction fuel generalizing count consolidatedSchema with
  | zero => omega
  | succ fuel ih =>
    unfold pageLoop
    by_cases hge : count + pageSize ≥ stagingFiles.length
    · simp only [hge, if_true, mergeSchema_eq]
      rw [List.take_of_length_le (by simp)]
    · simp only [hge, if_false, mergeSchema_eq]
      rw [ih (count + pageSize) _ (by omega), ← mergeAll_append]
      have hsplit : List.take (count + pageSize - count) (List.drop count stagingFiles)
          ++ List.drop (count + pageSize) stagingFiles = List.drop count stagingFiles := by
        have h1 : count + pageSize - count = pageSize := by omega
        have h2 : List.drop (count + pageSize) stagingFiles
            = List.drop pageSize (List.drop count stagingFiles) := by
          rw [List.drop_drop, Nat.add_comm]
        rw [h1, h2, List.take_append_drop]
      rw [hsplit]

/-! ## Properties of `getSchemaDiff` -/

/-- C1. `getSchemaDiff` is additive-only: a column that `currentSchema` maps to the type
`ty` is present in the result's `UpdatedSchema` with the same type `ty`, unless it is a
string column that the upload widens to text. (The proof does not use the exception: the
widening branch, lines 320-322, leaves `UpdatedSchema` alone.) -/
theorem getSchemaDiff_additive (currentSchema uploadSchema : SchemaT)
    (hwf : SchemaWF currentSchema) (tableName columnName ty : String)
    (hcur : typeOf currentSchema tableName columnName = some ty)
    (_ : ¬ (ty = "string" ∧ typeOf uploadSchema tableName columnName = some "text")) :
    ∃ diff, getSchemaDiff currentSchema uploadSchema = some diff ∧
      typeOf diff.UpdatedSchema tableName columnName = some ty := by
  refine ⟨_, getSchemaDiff_eq currentSchema uploadSchema, ?_⟩
  exact typeOf_updated_of_current currentSchema uploadSchema _ tableName columnName ty hcur
    (by rw [typeOf_copied currentSchema tableName columnName hwf]; exact hcur)

theorem getSchemaDiff_additive_witness :
    SchemaWF [("T", some [("c", "int")])] ∧
    typeOf [("T", some [("c", "int")])] "T" "c" = some "int" ∧
    ¬ ("int" = "string" ∧
      typeOf [("T", some [("c", "string"), ("d", "int")])] "T" "c" = some "text") ∧
    ∃ diff,
      getSchemaDiff [("T", some [("c", "int")])] [("T", some [("c", "string"), ("d", "int")])]
        = some diff ∧
      typeOf diff.UpdatedSchema "T" "c" = some "int" :=
  ⟨by decide, by decide, by decide,
    getSchemaDiff_additive [("T", some [("c", "int")])]
      [("T", some [("c", "string"), ("d", "int")])] (by decide) "T" "c" "int" (by decide)
      (by decide)⟩

/-- C4. `getSchemaDiff` detects new tables: `Tables`, read as a set, is the set of tables
present in `uploadSchema` and absent from `currentSchema`; for each of them `ColumnMaps`
and `UpdatedSchema` hold the upload's column map, and `Exists` is set as soon as there is
one. In particular the diff of the empty schema with `{T: {c: string}}` has
`Tables = [T]` and `ColumnMaps[T] = {c: string}`. -/
theorem getSchemaDiff_new_tables (currentSchema uploadSchema : SchemaT)
    (hwf : SchemaWF uploadSchema) :
    (∃ diff, getSchemaDiff currentSchema uploadSchema = some diff ∧
      (∀ tableName, tableName ∈ diff.Tables ↔
        (GoMap.find uploadSchema tableName ≠ none ∧
          GoMap.find currentSchema tableName = none)) ∧
      (∀ tableName, GoMap.find uploadSchema tableName ≠ none →
        GoMap.find currentSchema tableName = none →
          GoMap.find diff.ColumnMaps tableName = GoMap.find uploadSchema tableName ∧
          GoMap.find diff.UpdatedSchema tableName = GoMap.find uploadSchema tableName) ∧
      ((∃ tableName, GoMap.find uploadSchema tableName ≠ none ∧
          GoMap.find currentSchema tableName = none) → diff.Exists = true)) ∧
    getSchemaDiff [] [("T", some [("c", "string")])]
      = some
        { Tables := ["T"],
          ColumnMaps := [("T", some [("c", "string")])],
          UpdatedSchema := [("T", some [("c", "string")])],
          Exists := true,
          StringColumnsToBeAlteredToText := [] } := by
  refine ⟨⟨_, getSchemaDiff_eq currentSchema uploadSchema, ?_, ?_, ?_⟩, by decide⟩
  · intro tableName
    simp only [diffAll]
    rw [mem_tables]
    simp
  · intro tableName hup hcur
    simp only [diffAll]
    rw [find_columnMaps currentSchema uploadSchema [] tableName hwf.1,
      find_updated currentSchema uploadSchema _ tableName hwf.1]
    cases hf : GoMap.find uploadSchema tableName with
    | none => exact absurd hf hup
    | some cm => simp [hcur]
  · rintro ⟨tableName, hup, hcur⟩
    exact changes_of_new_table currentSchema uploadSchema tableName hup hcur

theorem getSchemaDiff_new_tables_witness :
    SchemaWF [("T", some [("c", "string")]), ("U", none)] ∧
    ∃ diff,
      getSchemaDiff [("U", some [])] [("T", some [("c", "string")]), ("U", none)]
        = some diff ∧
      (∀ tableName, tableName ∈ diff.Tables ↔
        (GoMap.find [("T", some [("c", "string")]), ("U", none)] tableName ≠ none ∧
          GoMap.find [("U", (some [] : ColumnMap))] tableName = none)) :=
  ⟨by decide,
    let ⟨diff, h, htables, _, _⟩ :=
      (getSchemaDiff_new_tables [("U", some [])] [("T", some [("c", "string")]), ("U", none)]
        (by decide)).1
    ⟨diff, h, htables⟩⟩

/-- C5. `getSchemaDiff` detects the new columns of a table that both schemas have:
`ColumnMaps[T]` is `uploadSchema[T]` restricted to the columns absent from
`currentSchema[T]`, `UpdatedSchema[T]` is `currentSchema[T]` extended by those columns
with their upload types, and `Exists` is set as soon as there is such a column. -/
theorem getSchemaDiff_new_columns (currentSchema uploadSchema : SchemaT)
    (hcwf : SchemaWF currentSchema) (huwf : SchemaWF uploadSchema) (tableName : String)
    (currentColumnsMap uploadColumnMap : ColumnMap)
    (hcur : GoMap.find currentSchema tableName = some currentColumnsMap)
    (hup : GoMap.find uploadSchema tableName = some uploadColumnMap) :
    ∃ diff, getSchemaDiff currentSchema uploadSchema = some diff ∧
      (∃ added, GoMap.find diff.ColumnMaps tableName = some (some added) ∧
        ∀ columnName, GoMap.find added columnName =
          match columnTypeOf currentColumnsMap columnName with
          | some _ => none
          | none => columnTypeOf uploadColumnMap columnName) ∧
      (∃ updated, GoMap.find diff.UpdatedSchema tableName = some (some updated) ∧
        ∀ columnName, GoMap.find updated columnName =
          match columnTypeOf currentColumnsMap columnName with
          | some ty => some ty
          | none => columnTypeOf uploadColumnMap columnName) ∧
      ((∃ columnName, columnTypeOf currentColumnsMap columnName = none ∧
          columnTypeOf uploadColumnMap columnName ≠ none) → diff.Exists = true) := by
  have hnew : ∀ columnName,
      GoMap.find ((rangeColumns uploadColumnMap).filter (isNewColumn currentColumnsMap))
        columnName =
        match columnTypeOf currentColumnsMap columnName with
        | some _ => none
        | none => columnTypeOf uploadColumnMap columnName := by
    intro columnName
    rw [find_filter _ _ _ (huwf.columns hup), columnTypeOf_eq_find uploadColumnMap]
    cases hc : columnTypeOf currentColumnsMap columnName <;>
      cases GoMap.find (rangeColumns uploadColumnMap) columnName <;> simp [isNewColumn, hc]
  have hnd := keys_filter_nodup (rangeColumns uploadColumnMap) (isNewColumn currentColumnsMap)
    (huwf.columns hup)
  have hcm : GoMap.find (diffAll currentSchema uploadSchema).ColumnMaps tableName
      = some (some (((rangeColumns uploadColumnMap).filter
          (isNewColumn currentColumnsMap)).foldl putColumn [])) := by
    simp only [diffAll]
    rw [find_columnMaps currentSchema uploadSchema [] tableName huwf.1, hup, hcur]
  have hus : GoMap.find (diffAll currentSchema uploadSchema).UpdatedSchema tableName
      = some (some (((rangeColumns uploadColumnMap).filter
          (isNewColumn currentColumnsMap)).foldl putColumn
            (rangeColumns (tableOf (currentSchema.foldl copyTableIn []) tableName)))) := by
    simp only [diffAll]
    rw [find_updated currentSchema uploadSchema _ tableName huwf.1, hup, hcur]
  refine ⟨_, getSchemaDiff_eq currentSchema uploadSchema, ⟨_, hcm, ?_⟩, ⟨_, hus, ?_⟩, ?_⟩
  · intro columnName
    rw [find_putColumns _ _ _ hnd, hnew]
    cases columnTypeOf currentColumnsMap columnName <;>
      cases columnTypeOf uploadColumnMap columnName <;> simp [GoMap.find]
  · intro columnName
    rw [find_putColumns _ _ _ hnd, hnew, ← columnTypeOf_eq_find]
    have hcopy := typeOf_copied currentSchema tableName columnName hcwf
    rw [typeOf_of_find hcur] at hcopy
    unfold typeOf at hcopy
    rw [hcopy]
    cases columnTypeOf currentColumnsMap columnName <;>
      cases columnTypeOf uploadColumnMap columnName <;> simp
  · rintro ⟨columnName, hnone, hsome⟩
    exact changes_of_new_column currentSchema uploadSchema tableName columnName
      currentColumnsMap uploadColumnMap hcur hup hnone hsome

theorem getSchemaDiff_new_columns_witness :
    SchemaWF [("T", some [("c", "int")])] ∧
    SchemaWF [("T", some [("c", "string"), ("d", "int")])] ∧
    ∃ diff,
      getSchemaDiff [("T", some [("c", "int")])] [("T", some [("c", "string"), ("d", "int")])]
        = some diff ∧
      (∃ added, GoMap.find diff.ColumnMaps "T" = some (some added) ∧
        ∀ columnName, GoMap.find added columnName =
          match columnTypeOf (some [("c", "int")]) columnName with
          | some _ => none
          | none => columnTypeOf (some [("c", "string"), ("d", "int")]) columnName) :=
  ⟨by decide, by decide,
    let ⟨diff, h, hadded, _, _⟩ :=
      getSchemaDiff_new_columns [("T", some [("c", "int")])]
        [("T", some [("c", "string"), ("d", "int")])] (by decide) (by decide) "T"
        (some [("c", "int")]) (some [("c", "string"), ("d", "int")]) (by decide) (by decide)
    ⟨diff, h, hadded⟩⟩

/-- C6, as the code has it. The diff of `{T: {c: string}}` with `{T: {c: text}}` has
`StringColumnsToBeAlteredToText[T] = [c]` and `Exists = true`, and adds no column: its
`ColumnMaps` maps `T` to an empty column map (line 314 creates the entry of every table
that both schemas have). In general a column present in both versions of a table is
listed in `StringColumnsToBeAlteredToText[table]` exactly when its upload type is text
and its current type is string. -/
theorem getSchemaDiff_widening (currentSchema uploadSchema : SchemaT)
    (hwf : SchemaWF uploadSchema) :
    (∃ diff, getSchemaDiff currentSchema uploadSchema = some diff ∧
      ∀ tableName columnName,
        typeOf currentSchema tableName columnName ≠ none →
        typeOf uploadSchema tableName columnName ≠ none →
          (columnName ∈ alteredColumns diff tableName ↔
            (typeOf uploadSchema tableName columnName = some "text" ∧
              typeOf currentSchema tableName columnName = some "string"))) ∧
    getSchemaDiff [("T", some [("c", "string")])] [("T", some [("c", "text")])]
      = some
        { Tables := [],
          ColumnMaps := [("T", some [])],
          UpdatedSchema := [("T", some [("c", "string")])],
          Exists := true,
          StringColumnsToBeAlteredToText := [("T", ["c"])] } := by
  refine ⟨⟨_, getSchemaDiff_eq currentSchema uploadSchema, ?_⟩, by decide⟩
  intro tableName columnName hcur hup
  rw [alteredColumns_diffAll currentSchema uploadSchema tableName hwf.1]
  cases hfu : GoMap.find uploadSchema tableName with
  | none => exact absurd (typeOf_of_find_none hfu columnName) hup
  | some uploadColumnMap =>
    cases hfc : GoMap.find currentSchema tableName with
    | none => exact absurd (typeOf_of_find_none hfc columnName) hcur
    | some currentColumnsMap =>
      simp only
      rw [mem_widened _ _ _ (hwf.columns hfu), typeOf_of_find hfu, typeOf_of_find hfc,
        columnTypeOf_eq_find uploadColumnMap]

theorem getSchemaDiff_widening_witness :
    SchemaWF [("T", some [("c", "text"), ("d", "text")])] ∧
    ∃ diff,
      getSchemaDiff [("T", some [("c", "string"), ("d", "int")])]
        [("T", some [("c", "text"), ("d", "text")])] = some diff ∧
      ∀ tableName columnName,
        typeOf [("T", some [("c", "string"), ("d", "int")])] tableName columnName ≠ none →
        typeOf [("T", some [("c", "text"), ("d", "text")])] tableName columnName ≠ none →
          (columnName ∈ alteredColumns diff tableName ↔
            (typeOf [("T", some [("c", "text"), ("d", "text")])] tableName columnName
                = some "text" ∧
              typeOf [("T", some [("c", "string"), ("d", "int")])] tableName columnName
                = some "string")) :=
  ⟨by decide,
    (getSchemaDiff_widening [("T", some [("c", "string"), ("d", "int")])]
      [("T", some [("c", "text"), ("d", "text")])] (by decide)).1⟩

/-- C6 as stated fails: the diff of `{T: {c: string}}` with `{T: {c: text}}` does have
a key `T` in `ColumnMaps`. -/
theorem getSchemaDiff_widening_has_key :
    ¬ ∃ diff,
      getSchemaDiff [("T", some [("c", "string")])] [("T", some [("c", "text")])]
        = some diff ∧
      GoMap.find diff.ColumnMaps "T" = none := by
  rintro ⟨diff, h, hnone⟩
  have heval :
      getSchemaDiff [("T", some [("c", "string")])] [("T", some [("c", "text")])]
        = some
          { Tables := [],
            ColumnMaps := [("T", some [])],
            UpdatedSchema := [("T", some [("c", "string")])],
            Exists := true,
            StringColumnsToBeAlteredToText := [("T", ["c"])] } := by decide
  rw [heval] at h
  cases h
  revert hnone
  decide

/-- C7 fails on the code: in the diff of `{T: {c: string}}` with `{T: {c: text}}` the
column `c` is listed in `StringColumnsToBeAlteredToText[T]`, and `UpdatedSchema[T][c]`
is still `string`, not `text`. -/
theorem getSchemaDiff_widened_stays_string :
    ∃ diff,
      getSchemaDiff [("T", some [("c", "string")])] [("T", some [("c", "text")])]
        = some diff ∧
      "c" ∈ alteredColumns diff "T" ∧
      typeOf diff.UpdatedSchema "T" "c" = some "string" :=
  ⟨{ Tables := [],
     ColumnMaps := [("T", some [])],
     UpdatedSchema := [("T", some [("c", "string")])],
     Exists := true,
     StringColumnsToBeAlteredToText := [("T", ["c"])] },
    by decide, by decide, by decide⟩

/-- C8. A column present in both versions of a table with different types, other than
upload text over current string, is not represented in the diff: it is no key of
`ColumnMaps[T]`, it is not listed in `StringColumnsToBeAlteredToText[T]`,
`UpdatedSchema[T][c]` keeps the current type, and `getSchemaDiff` returns. When every
table and column of the upload is in the current schema and no column is widened,
`Exists` is false. -/
theorem getSchemaDiff_mismatch (currentSchema uploadSchema : SchemaT)
    (hcwf : SchemaWF currentSchema) (huwf : SchemaWF uploadSchema) :
    ∃ diff, getSchemaDiff currentSchema uploadSchema = some diff ∧
      (∀ tableName columnName currentType uploadType,
        typeOf currentSchema tableName columnName = some currentType →
        typeOf uploadSchema tableName columnName = some uploadType →
        uploadType ≠ currentType →
        ¬ (uploadType = "text" ∧ currentType = "string") →
          typeOf diff.ColumnMaps tableName columnName = none ∧
          columnName ∉ alteredColumns diff tableName ∧
          typeOf diff.UpdatedSchema tableName columnName = some currentType) ∧
      ((∀ tableName, GoMap.find uploadSchema tableName ≠ none →
          GoMap.find currentSchema tableName ≠ none) →
        (∀ tableName columnName, typeOf uploadSchema tableName columnName ≠ none →
          typeOf currentSchema tableName columnName ≠ none) →
        (∀ tableName columnName,
          ¬ (typeOf uploadSchema tableName columnName = some "text" ∧
            typeOf currentSchema tableName columnName = some "string")) →
        diff.Exists = false) := by
  refine ⟨_, getSchemaDiff_eq currentSchema uploadSchema, ?_, ?_⟩
  · intro tableName columnName currentType uploadType hcur hup _ hnw
    obtain ⟨currentColumnsMap, hfc, hcc⟩ := find_of_typeOf hcur
    obtain ⟨uploadColumnMap, hfu, huc⟩ := find_of_typeOf hup
    refine ⟨?_, ?_, ?_⟩
    · have hfind : GoMap.find (diffAll currentSchema uploadSchema).ColumnMaps tableName
          = some (some (((rangeColumns uploadColumnMap).filter
              (isNewColumn currentColumnsMap)).foldl putColumn [])) := by
        simp only [diffAll]
        rw [find_columnMaps currentSchema uploadSchema [] tableName huwf.1, hfu, hfc]
      rw [typeOf_of_find hfind]
      simp only [columnTypeOf]
      rw [foldl_find_of_not_mem putColumn putColumn_frame _ _ columnName
        ((GoMap.find_eq_none_iff _ columnName).1
          (find_filter_isNew _ currentColumnsMap columnName (by simp [hcc])))]
      rfl
    · rw [alteredColumns_diffAll currentSchema uploadSchema tableName huwf.1, hfu, hfc]
      simp only
      rw [mem_widened _ _ _ (huwf.columns hfu), ← columnTypeOf_eq_find, huc, hcc]
      rintro ⟨h1, h2⟩
      exact hnw ⟨Option.some.inj h1, Option.some.inj h2⟩
    · exact typeOf_updated_of_current currentSchema uploadSchema _ tableName columnName
        currentType hcur
        (by rw [typeOf_copied currentSchema tableName columnName hcwf]; exact hcur)
  · intro htables hcolumns hnowiden
    simp only [diffAll]
    rw [Bool.eq_false_iff]
    intro hany
    obtain ⟨tbl, htbl, hchanges⟩ := List.any_eq_true.1 hany
    obtain ⟨tableName, uploadColumnMap⟩ := tbl
    have hfu := GoMap.find_of_mem uploadSchema tableName uploadColumnMap huwf.1 htbl
    cases hfc : GoMap.find currentSchema tableName with
    | none => exact htables tableName (by simp [hfu]) hfc
    | some currentColumnsMap =>
      simp only [changes, hfc] at hchanges
      obtain ⟨col, hcol, hcond⟩ := List.any_eq_true.1 hchanges
      obtain ⟨columnName, columnType⟩ := col
      have hfcol := GoMap.find_of_mem (rangeColumns uploadColumnMap) columnName columnType
        (huwf.columns hfu) hcol
      have hup : typeOf uploadSchema tableName columnName = some columnType := by
        rw [typeOf_of_find hfu, columnTypeOf_eq_find, hfcol]
      have hcur := hcolumns tableName columnName (by simp [hup])
      rw [typeOf_of_find hfc] at hcur
      rcases Bool.or_eq_true _ _ ▸ hcond with hn | hw
      · simp only [isNewColumn, Option.isNone_iff_eq_none] at hn
        exact hcur hn
      · simp only [isWidening, decide_eq_true_eq] at hw
        refine hnowiden tableName columnName ⟨?_, ?_⟩
        · rw [hup, hw.1]
        · rw [typeOf_of_find hfc]; exact hw.2

theorem getSchemaDiff_mismatch_witness :
    SchemaWF [("T", some [("c", "string")])] ∧ SchemaWF [("T", some [("c", "int")])] ∧
    ∃ diff,
      getSchemaDiff [("T", some [("c", "string")])] [("T", some [("c", "int")])]
        = some diff ∧
      typeOf diff.ColumnMaps "T" "c" = none ∧
      "c" ∉ alteredColumns diff "T" ∧
      typeOf diff.UpdatedSchema "T" "c" = some "string" :=
  ⟨by decide, by decide,
    let ⟨diff, h, hcol, _⟩ :=
      getSchemaDiff_mismatch [("T", some [("c", "string")])] [("T", some [("c", "int")])]
        (by decide) (by decide)
    ⟨diff, h, hcol "T" "c" "string" "int" (by decide) (by decide) (by decide) (by decide)⟩⟩

/-! ## Properties of `mergeSchema` -/

/-- C2 fails on the code: with `{T.c: string}` in `currentSchema` and staging schemas
offering `{T.c: text}` and then `{T.c: int}`, `mergeSchema` returns `{T.c: string}`: the
second schema overwrites the widened type with the type in `currentSchema` (line 180). -/
theorem mergeSchema_widening_overwritten :
    mergeSchema [("T", some [("c", "string")])]
      [[("T", some [("c", "text")])], [("T", some [("c", "int")])]] []
      = some [("T", some [("c", "string")])] := by
  decide

/-- C3. New-column first-writer-wins: for a column that `currentSchema` does not define
and the accumulator does not contain, the merged type is the type given by the first
schema of the list that contains the column. With an empty `currentSchema` and staging
schemas `{T.c: int}` then `{T.c: string}` the result is `{T.c: int}`. -/
theorem mergeSchema_first_writer (currentSchema : SchemaT) (schemaList : List SchemaT)
    (currentMergedSchema : SchemaT) (tableName columnName : String)
    (hwf : ∀ schema ∈ schemaList, SchemaWF schema)
    (hcur : typeOf currentSchema tableName columnName = none)
    (hacc : typeOf currentMergedSchema tableName columnName = none) :
    (∃ merged, mergeSchema currentSchema schemaList currentMergedSchema = some merged ∧
      typeOf merged tableName columnName
        = schemaList.findSome? (fun schema => typeOf schema tableName columnName)) ∧
    mergeSchema [] [[("T", some [("c", "int")])], [("T", some [("c", "string")])]] []
      = some [("T", some [("c", "int")])] := by
  refine ⟨⟨_, mergeSchema_eq currentSchema schemaList currentMergedSchema, ?_⟩, by decide⟩
  rw [typeOf_mergeAll, hcur, hacc, foldl_offer_none]
  exact head_offersOf schemaList tableName columnName hwf

theorem mergeSchema_first_writer_witness :
    (∀ schema ∈ [[("T", some [("d", "int")])], [("T", some [("c", "int")])],
        [("T", some [("c", "string")])]], SchemaWF schema) ∧
    ∃ merged,
      mergeSchema [("T", some [("d", "float")])]
        [[("T", some [("d", "int")])], [("T", some [("c", "int")])],
          [("T", some [("c", "string")])]] [] = some merged ∧
      typeOf merged "T" "c" = some "int" :=
  ⟨by decide,
    let ⟨merged, h, htype⟩ :=
      (mergeSchema_first_writer [("T", some [("d", "float")])]
        [[("T", some [("d", "int")])], [("T", some [("c", "int")])],
          [("T", some [("c", "string")])]] [] "T" "c" (by decide) (by decide) (by decide)).1
    ⟨merged, h, htype.trans (by decide)⟩⟩

/-- C9. The merge result does not depend on the page size: merging `l1 ++ l2` is merging
`l2` into the result of merging `l1`, and for every page size of at least one the page
loop of `consolidateStagingFilesSchemaUsingWarehouseSchema` returns what a single
`mergeSchema` call on the whole list returns from the empty schema. -/
theorem mergeSchema_page_size (currentSchema currentMergedSchema : SchemaT)
    (l1 l2 stagingFiles : List SchemaT) (pageSize : Nat) (hp : pageSize ≥ 1) :
    (∃ first merged, mergeSchema currentSchema l1 currentMergedSchema = some first ∧
      mergeSchema currentSchema l2 first = some merged ∧
      mergeSchema currentSchema (l1 ++ l2) currentMergedSchema = some merged) ∧
    (∃ merged, mergeSchema currentSchema stagingFiles [] = some merged ∧
      ∀ fuel, fuel > stagingFiles.length →
        pageLoop pageSize currentSchema stagingFiles fuel 0 [] = some merged) := by
  refine ⟨⟨_, _, mergeSchema_eq _ _ _, mergeSchema_eq _ _ _, ?_⟩,
    ⟨_, mergeSchema_eq _ _ _, ?_⟩⟩
  · rw [mergeSchema_eq, mergeAll_append]
  · intro fuel hfuel
    rw [pageLoop_eq pageSize currentSchema stagingFiles hp fuel 0 [] (by omega)]
    rfl

theorem mergeSchema_page_size_witness :
    ∃ merged,
      mergeSchema [("T", some [("c", "string")])]
        [[("T", some [("c", "text")])], [("U", some [("d", "int")])],
          [("U", some [("d", "float"), ("e", "int")])]] [] = some merged ∧
      ∀ fuel, fuel > 3 →
        pageLoop 2 [("T", some [("c", "string")])]
          [[("T", some [("c", "text")])], [("U", some [("d", "int")])],
            [("U", some [("d", "float"), ("e", "int")])]] fuel 0 [] = some merged :=
  (mergeSchema_page_size [("T", some [("c", "string")])] [] [] []
    [[("T", some [("c", "text")])], [("U", some [("d", "int")])],
      [("U", some [("d", "float"), ("e", "int")])]] 2 (by decide)).2

/-- C10. Merge is idempotent: merging the staging schemas of `schemaList` a second time,
in the same order, into the result of merging them leaves that result unchanged. -/
theorem mergeSchema_idempotent (currentSchema : SchemaT) (schemaList : List SchemaT) :
    ∃ merged, mergeSchema currentSchema schemaList [] = some merged ∧
      mergeSchema currentSchema schemaList merged = some merged := by
  refine ⟨_, mergeSchema_eq currentSchema schemaList [], ?_⟩
  rw [mergeSchema_eq, mergeAll_idem currentSchema schemaList [] (by decide)]

/-! ## The synthetic tables: no panic, and the closed form -/

theorem allocated_put (schema : SchemaT) (tableName : String) (cols : GoMap String)
    (h : Allocated schema) : Allocated (GoMap.put schema tableName (some cols)) := by
  intro other cm hfind
  rw [GoMap.find_put] at hfind
  by_cases hk : tableName = other
  · rw [if_pos hk] at hfind
    exact ⟨cols, (Option.some.inj hfind).symm⟩
  · rw [if_neg hk] at hfind
    exact h other cm hfind

theorem allocated_mergeAll (currentSchema : SchemaT) (schemaList : List SchemaT)
    (merged : SchemaT) (h : Allocated merged) :
    Allocated (mergeAll currentSchema schemaList merged) := by
  rw [mergeAll_flatten]
  generalize schemaList.flatten = tbls
  induction tbls generalizing merged with
  | nil => exact h
  | cons tbl tbls ih => exact ih _ (allocated_put merged tbl.1 _ h)

theorem allocated_nil : Allocated [] := by
  intro tableName cm hfind
  simp [GoMap.find] at hfind

theorem addMergeRuleColumns_eq (names : List String) (cols : GoMap String) :
    names.foldlM addMergeRuleColumn (some cols)
      = some (some (names.foldl ensureColumn cols)) := by
  induction names generalizing cols with
  | nil => rfl
  | cons n names ih =>
    have hstep : addMergeRuleColumn (some cols) n = some (some (ensureColumn cols n)) := by
      unfold addMergeRuleColumn ensureColumn columnTypeOf
      cases hf : GoMap.find cols n <;> simp [hf]
    rw [List.foldlM_cons, hstep]
    simp only [Option.bind_eq_bind, Option.some_bind, List.foldl_cons]
    exact ih _

theorem find_ensureColumn (cols : GoMap String) (colName k : String) :
    GoMap.find (ensureColumn cols colName) k
      = match GoMap.find cols k with
        | some ty => some ty
        | none => if k = colName then some "string" else none := by
  unfold ensureColumn
  by_cases hk : k = colName
  · subst hk
    cases hf : GoMap.find cols k with
    | none => simp [GoMap.find_put_self]
    | some ty => simp [hf]
  · have hk' : ¬ colName = k := fun x => hk x.symm
    cases hf : GoMap.find cols colName with
    | none =>
      simp only [GoMap.find_put, hk', if_false, hk]
      cases GoMap.find cols k <;> rfl
    | some ty =>
      simp only [hk, if_false]
      cases GoMap.find cols k <;> rfl

theorem find_ensureColumns (names : List String) (cols : GoMap String) (k : String) :
    GoMap.find (names.foldl ensureColumn cols) k
      = match GoMap.find cols k with
        | some ty => some ty
        | none => if k ∈ names then some "string" else none := by
  induction names generalizing cols with
  | nil => cases hf : GoMap.find cols k <;> simp [hf]
  | cons n names ih =>
    rw [List.foldl_cons, ih, find_ensureColumn]
    cases GoMap.find cols k with
    | some ty => rfl
    | none =>
      by_cases hk : k = n
      · simp [hk]
      · by_cases hm : k ∈ names
        · simp [hk, hm]
        · simp [hk, hm]

theorem injectIdentity_eq (utils : WarehouseUtils) (destType : String)
    (consolidatedSchema : SchemaT) (h : Allocated consolidatedSchema) :
    injectIdentity utils destType consolidatedSchema
      = some (identityIn utils destType consolidatedSchema) := by
  unfold injectIdentity identityIn
  by_cases hc : utils.IDResolutionEnabled = true ∧
      ContainsString utils.IdentityEnabledWarehouses destType = true
  · rw [if_pos hc, if_pos hc]
    cases hf : GoMap.find consolidatedSchema
        (utils.ToProviderCase destType utils.IdentityMergeRulesTable) with
    | none => rfl
    | some mergeRulesSchema =>
      obtain ⟨cols, hcols⟩ := h _ _ hf
      subst hcols
      simp only [addMergeRuleColumns_eq, rangeColumns]
  · rw [if_neg hc, if_neg hc]

theorem consolidate_eq (utils : WarehouseUtils) (pageSize : Nat) (destType : String)
    (localSchema : SchemaT) (stagingFiles : List SchemaT) (fuel : Nat)
    (hp : pageSize ≥ 1) (hfuel : fuel > stagingFiles.length) :
    consolidateStagingFilesSchemaUsingWarehouseSchema utils pageSize destType localSchema
        stagingFiles fuel
      = some (identityIn utils destType
          (injectDiscards utils destType (mergeAll localSchema stagingFiles []))) := by
  unfold consolidateStagingFilesSchemaUsingWarehouseSchema
  rw [pageLoop_eq pageSize localSchema stagingFiles hp fuel 0 [] (by omega)]
  simp only [List.drop_zero]
  exact injectIdentity_eq utils destType _
    (allocated_put _ _ _ (allocated_mergeAll localSchema stagingFiles [] allocated_nil))

theorem find_mapLiteral (entries : List (String × String)) (k : String)
    (hnd : (GoMap.keys entries).Nodup) :
    GoMap.find (mapLiteral entries) k = GoMap.find entries k := by
  unfold mapLiteral
  rw [find_putColumns entries [] k hnd]
  cases GoMap.find entries k <;> rfl

theorem find_discardsColumns (utils : WarehouseUtils) (destType k : String)
    (hinj : Function.Injective (utils.ToProviderCase destType)) :
    GoMap.find (discardsColumns utils destType) k
      = if destType = "BQ" ∧ utils.ToProviderCase destType "loaded_at" = k then
          some "datetime"
        else
          GoMap.find
            [(utils.ToProviderCase destType "table_name", "string"),
             (utils.ToProviderCase destType "row_id", "string"),
             (utils.ToProviderCase destType "column_name", "string"),
             (utils.ToProviderCase destType "column_value", "string"),
             (utils.ToProviderCase destType "received_at", "datetime"),
             (utils.ToProviderCase destType "uuid_ts", "datetime")] k := by
  have hnd : (GoMap.keys
      [(utils.ToProviderCase destType "table_name", "string"),
       (utils.ToProviderCase destType "row_id", "string"),
       (utils.ToProviderCase destType "column_name", "string"),
       (utils.ToProviderCase destType "column_value", "string"),
       (utils.ToProviderCase destType "received_at", "datetime"),
       (utils.ToProviderCase destType "uuid_ts", "datetime")]).Nodup := by
    have hnames : (["table_name", "row_id", "column_name", "column_value", "received_at",
        "uuid_ts"].map (utils.ToProviderCase destType)).Nodup :=
      List.Nodup.map hinj (by decide)
    simpa [GoMap.keys] using hnames
  unfold discardsColumns
  by_cases hbq : destType = "BQ"
  · simp only [hbq, if_true, true_and, GoMap.find_put]
    rw [← hbq, find_mapLiteral _ k hnd]
  · simp only [hbq, if_false, false_and]
    rw [find_mapLiteral _ k hnd]

/-- The columns of the discards table, for a naming-case function that keeps distinct
names distinct. -/
theorem discards_columns (utils : WarehouseUtils) (destType : String)
    (hinj : Function.Injective (utils.ToProviderCase destType)) :
    (∀ name ∈ ["table_name", "row_id", "column_name", "column_value"],
      GoMap.find (discardsColumns utils destType) (utils.ToProviderCase destType name)
        = some "string") ∧
    (∀ name ∈ ["received_at", "uuid_ts"],
      GoMap.find (discardsColumns utils destType) (utils.ToProviderCase destType name)
        = some "datetime") ∧
    (GoMap.find (discardsColumns utils destType) (utils.ToProviderCase destType "loaded_at")
      = if destType = "BQ" then some "datetime" else none) ∧
    (∀ k, k ∉ ["table_name", "row_id", "column_name", "column_value", "received_at",
        "uuid_ts", "loaded_at"].map (utils.ToProviderCase destType) →
      GoMap.find (discardsColumns utils destType) k = none) := by
  refine ⟨?_, ?_, ?_, ?_⟩
  · intro name hname
    rw [find_discardsColumns utils destType _ hinj]
    simp only [List.mem_cons, List.mem_singleton, List.not_mem_nil, or_false] at hname
    rcases hname with h | h | h | h <;> subst h <;> simp [GoMap.find, hinj.eq_iff]
  · intro name hname
    rw [find_discardsColumns utils destType _ hinj]
    simp only [List.mem_cons, List.mem_singleton, List.not_mem_nil, or_false] at hname
    rcases hname with h | h <;> subst h <;> simp [GoMap.find, hinj.eq_iff]
  · rw [find_discardsColumns utils destType _ hinj]
    by_cases hbq : destType = "BQ"
    · simp [hbq]
    · simp [hbq, GoMap.find, hinj.eq_iff]
  · intro k hk
    rw [find_discardsColumns utils destType _ hinj]
    simp only [List.map_cons, List.map_nil, List.mem_cons, List.mem_singleton,
      List.not_mem_nil, or_false, not_or] at hk
    obtain ⟨h1, h2, h3, h4, h5, h6, h7⟩ := hk
    simp [GoMap.find, Ne.symm h1, Ne.symm h2, Ne.symm h3, Ne.symm h4, Ne.symm h5, Ne.symm h6,
      Ne.symm h7]

/-- The columns of the identity-mappings table, when the naming-case function gives none
of the three string columns the name of `updated_at`, which is written last. -/
theorem identityMappings_columns_of_ne (utils : WarehouseUtils) (destType : String)
    (hcols : ∀ name ∈ ["merge_property_type", "merge_property_value", "rudder_id"],
      utils.ToProviderCase destType name ≠ utils.ToProviderCase destType "updated_at") :
    (∀ name ∈ ["merge_property_type", "merge_property_value", "rudder_id"],
      GoMap.find (identityMappingsColumns utils destType)
        (utils.ToProviderCase destType name) = some "string") ∧
    (GoMap.find (identityMappingsColumns utils destType)
      (utils.ToProviderCase destType "updated_at") = some "datetime") ∧
    (∀ k, k ∉ ["merge_property_type", "merge_property_value", "rudder_id",
        "updated_at"].map (utils.ToProviderCase destType) →
      GoMap.find (identityMappingsColumns utils destType) k = none) := by
  have hfind : ∀ k, GoMap.find (identityMappingsColumns utils destType) k
      = if utils.ToProviderCase destType "updated_at" = k then some "datetime"
        else if utils.ToProviderCase destType "rudder_id" = k then some "string"
        else if utils.ToProviderCase destType "merge_property_value" = k then some "string"
        else if utils.ToProviderCase destType "merge_property_type" = k then some "string"
        else none := by
    intro k
    simp only [identityMappingsColumns, mapLiteral, List.foldl, putColumn, GoMap.find_put]
    rfl
  have h1 := hcols "merge_property_type" (by decide)
  have h2 := hcols "merge_property_value" (by decide)
  have h3 := hcols "rudder_id" (by decide)
  refine ⟨?_, ?_, ?_⟩
  · intro name hname
    rw [hfind]
    simp only [List.mem_cons, List.mem_singleton, List.not_mem_nil, or_false] at hname
    rcases hname with h | h | h <;> subst h
    · simp [Ne.symm h1]
    · simp [Ne.symm h2]
    · simp [Ne.symm h3]
  · rw [hfind]
    simp
  · intro k hk
    rw [hfind]
    simp only [List.map_cons, List.map_nil, List.mem_cons, List.mem_singleton,
      List.not_mem_nil, or_false, not_or] at hk
    obtain ⟨h1, h2, h3, h4⟩ := hk
    simp [Ne.symm h1, Ne.symm h2, Ne.symm h3, Ne.symm h4]

/-- The identity step writes the merge-rules table and the identity-mappings table only. -/
theorem find_identityIn_other (utils : WarehouseUtils) (destType : String)
    (consolidatedSchema : SchemaT) (k : String)
    (hmr : utils.ToProviderCase destType utils.IdentityMergeRulesTable ≠ k)
    (hmp : utils.ToProviderCase destType utils.IdentityMappingsTable ≠ k) :
    GoMap.find (identityIn utils destType consolidatedSchema) k
      = GoMap.find consolidatedSchema k := by
  unfold identityIn
  split
  · split
    · rw [GoMap.find_put_ne _ _ hmp, GoMap.find_put_ne _ _ hmr]
    · rfl
  · rfl

/-- Without the flag, the allowlist or the merge-rules table the identity step does
nothing. -/
theorem identityIn_skip (utils : WarehouseUtils) (destType : String)
    (consolidatedSchema : SchemaT)
    (h : utils.IDResolutionEnabled = false ∨
      destType ∉ utils.IdentityEnabledWarehouses ∨
      GoMap.find consolidatedSchema
        (utils.ToProviderCase destType utils.IdentityMergeRulesTable) = none) :
    identityIn utils destType consolidatedSchema = consolidatedSchema := by
  unfold identityIn
  split
  · rename_i hc
    rcases h with h | h | h
    · rw [h] at hc; exact absurd hc.1 (by simp)
    · exact absurd hc.2 (by simp [ContainsString, h])
    · rw [h]
  · rfl

/-- With the flag, the allowlist and the merge-rules table the identity step completes
the merge-rules table and sets the identity-mappings table. -/
theorem identityIn_run (utils : WarehouseUtils) (destType : String)
    (consolidatedSchema : SchemaT) (mergeRulesSchema : ColumnMap)
    (hflag : utils.IDResolutionEnabled = true)
    (hallow : destType ∈ utils.IdentityEnabledWarehouses)
    (hrules : GoMap.find consolidatedSchema
      (utils.ToProviderCase destType utils.IdentityMergeRulesTable) = some mergeRulesSchema) :
    identityIn utils destType consolidatedSchema
      = GoMap.put
          (GoMap.put consolidatedSchema
            (utils.ToProviderCase destType utils.IdentityMergeRulesTable)
            (some ((mergeRuleColumns utils destType).foldl ensureColumn
              (rangeColumns mergeRulesSchema))))
          (utils.ToProviderCase destType utils.IdentityMappingsTable)
          (some (identityMappingsColumns utils destType)) := by
  unfold identityIn
  have hc : utils.IDResolutionEnabled = true ∧
      ContainsString utils.IdentityEnabledWarehouses destType = true :=
    ⟨hflag, by simp [ContainsString, hallow]⟩
  rw [if_pos hc, hrules]

/-! ## Properties of `handleSchemaChange` -/

theorem IntSize.wrap_lt (size : IntSize) (i : Int) : size.wrap i < size.half := by
  cases size <;> simp only [IntSize.wrap, IntSize.half] <;> omega

theorem IntSize.fits_wrap (size : IntSize) (i : Int) : size.fits (size.wrap i) := by
  cases size <;> simp only [IntSize.fits, IntSize.wrap, IntSize.half] <;> omega

theorem IntSize.half_le (size : IntSize) : size.half ≤ 9223372036854775808 := by
  cases size <;> simp [IntSize.half]

theorem IntSize.fits_three (size : IntSize) : size.fits 3 := by
  cases size <;> decide

/-- In the branch of line 31 a `float64` is converted to an `int`, any other value gives
nil, and `ok` is true. -/
theorem handleSchemaChange_float_to_int (rt : GoRuntime) (existingDataType : String)
    (columnVal : Value) (h : existingDataType = "int" ∨ existingDataType = "bigint") :
    handleSchemaChange rt existingDataType "float" columnVal
      = match columnVal with
        | Value.float64 floatVal => (Value.int (floatToInt rt floatVal), true)
        | _ => (Value.nil, true) := by
  rcases h with h | h <;> subst h <;> simp [handleSchemaChange]

/-- In the branch of line 29 the value is returned as it is. -/
theorem handleSchemaChange_int_to_float (rt : GoRuntime) (columnType : String)
    (columnVal : Value) (h : columnType = "int" ∨ columnType = "bigint") :
    handleSchemaChange rt "float" columnType columnVal = (columnVal, true) := by
  rcases h with h | h <;> subst h <;> simp [handleSchemaChange]

/-- C11. `handleSchemaChange` succeeds exactly when the target type is string or text, or
the target is int or bigint and the detected kind float, or the target is float and the
detected kind int or bigint; for every other combination and every value it returns
`(nil, false)`. -/
theorem handleSchemaChange_ok (rt : GoRuntime) (existingDataType columnType : String)
    (columnVal : Value) :
    ((handleSchemaChange rt existingDataType columnType columnVal).2 = true ↔
      (existingDataType = "string" ∨ existingDataType = "text" ∨
        ((existingDataType = "int" ∨ existingDataType = "bigint") ∧ columnType = "float") ∨
        (existingDataType = "float" ∧ (columnType = "int" ∨ columnType = "bigint")))) ∧
    (¬ (existingDataType = "string" ∨ existingDataType = "text" ∨
        ((existingDataType = "int" ∨ existingDataType = "bigint") ∧ columnType = "float") ∨
        (existingDataType = "float" ∧ (columnType = "int" ∨ columnType = "bigint"))) →
      handleSchemaChange rt existingDataType columnType columnVal = (Value.nil, false)) := by
  unfold handleSchemaChange
  by_cases h1 : existingDataType = "string" ∨ existingDataType = "text"
  · have hc : existingDataType = "string" ∨ existingDataType = "text" ∨
        ((existingDataType = "int" ∨ existingDataType = "bigint") ∧ columnType = "float") ∨
        (existingDataType = "float" ∧ (columnType = "int" ∨ columnType = "bigint")) := by
      rcases h1 with h | h
      · exact Or.inl h
      · exact Or.inr (Or.inl h)
    rw [if_pos h1]
    exact ⟨⟨fun _ => hc, fun _ => rfl⟩, fun hn => absurd hc hn⟩
  · by_cases h2 : (columnType = "int" ∨ columnType = "bigint") ∧ existingDataType = "float"
    · have hc : existingDataType = "string" ∨ existingDataType = "text" ∨
          ((existingDataType = "int" ∨ existingDataType = "bigint") ∧ columnType = "float") ∨
          (existingDataType = "float" ∧ (columnType = "int" ∨ columnType = "bigint")) :=
        Or.inr (Or.inr (Or.inr ⟨h2.2, h2.1⟩))
      rw [if_neg h1, if_pos h2]
      exact ⟨⟨fun _ => hc, fun _ => rfl⟩, fun hn => absurd hc hn⟩
    · by_cases h3 : columnType = "float" ∧
          (existingDataType = "int" ∨ existingDataType = "bigint")
      · have hc : existingDataType = "string" ∨ existingDataType = "text" ∨
            ((existingDataType = "int" ∨ existingDataType = "bigint") ∧
              columnType = "float") ∨
            (existingDataType = "float" ∧ (columnType = "int" ∨ columnType = "bigint")) :=
          Or.inr (Or.inr (Or.inl ⟨h3.2, h3.1⟩))
        rw [if_neg h1, if_neg h2, if_pos h3]
        refine ⟨⟨fun _ => hc, fun _ => ?_⟩, fun hn => absurd hc hn⟩
        cases columnVal <;> rfl
      · have hc : ¬ (existingDataType = "string" ∨ existingDataType = "text" ∨
            ((existingDataType = "int" ∨ existingDataType = "bigint") ∧
              columnType = "float") ∨
            (existingDataType = "float" ∧ (columnType = "int" ∨ columnType = "bigint"))) := by
          rintro (h | h | h | h)
          · exact h1 (Or.inl h)
          · exact h1 (Or.inr h)
          · exact h3 ⟨h.2, h.1⟩
          · exact h2 ⟨h.2, h.1⟩
        rw [if_neg h1, if_neg h2, if_neg h3]
        exact ⟨⟨fun h => by simp at h, fun h => absurd h hc⟩, fun _ => rfl⟩

/-- C12, as the code has it. For a target column type of int or bigint and a detected
kind of float, `handleSchemaChange` succeeds for every value, and the value is not passed
through: a `float64` is converted to an `int`, its fraction discarded when the result is a
value of `int`, and a value that is not a `float64` gives nil. -/
theorem handleSchemaChange_int_target (rt : GoRuntime) (existingDataType : String)
    (h : existingDataType = "int" ∨ existingDataType = "bigint") :
    (∀ floatVal, handleSchemaChange rt existingDataType "float" (Value.float64 floatVal)
      = (Value.int (floatToInt rt floatVal), true)) ∧
    (∀ q, rt.intSize.fits (truncate q) → floatToInt rt (Float64.finite q) = truncate q) ∧
    (∀ columnVal, (∀ floatVal, columnVal ≠ Value.float64 floatVal) →
      handleSchemaChange rt existingDataType "float" columnVal = (Value.nil, true)) := by
  refine ⟨fun floatVal => ?_, fun q hq => ?_, fun columnVal hv => ?_⟩
  · rw [handleSchemaChange_float_to_int rt existingDataType _ h]
  · simp [floatToInt, hq]
  · rw [handleSchemaChange_float_to_int rt existingDataType _ h]
    cases columnVal with
    | float64 floatVal => exact absurd rfl (hv floatVal)
    | _ => rfl

theorem handleSchemaChange_int_target_witness :
    handleSchemaChange amd64 "int" "float" (Value.float64 (Float64.finite (mkRat 7 2)))
      = (Value.int 3, true) :=
  ((handleSchemaChange_int_target amd64 "int" (Or.inl rfl)).1 _).trans (by decide)

/-- C12 as stated fails: with the target type int and the detected kind float, no
runtime makes `handleSchemaChange` return the `float64` value 3.5 unchanged. -/
theorem handleSchemaChange_int_target_changes :
    ¬ ∃ rt : GoRuntime,
      handleSchemaChange rt "int" "float" (Value.float64 (Float64.finite (mkRat 7 2)))
        = (Value.float64 (Float64.finite (mkRat 7 2)), true) := by
  rintro ⟨rt, h⟩
  rw [handleSchemaChange_float_to_int rt "int" _ (Or.inl rfl)] at h
  simp at h

/-- C13, as the code has it. For a target column type of float and a detected kind of int
or bigint, `handleSchemaChange` succeeds and returns the value as it is: nothing is
truncated or converted. -/
theorem handleSchemaChange_float_target (rt : GoRuntime) (columnType : String)
    (columnVal : Value) (h : columnType = "int" ∨ columnType = "bigint") :
    handleSchemaChange rt "float" columnType columnVal = (columnVal, true) :=
  handleSchemaChange_int_to_float rt columnType columnVal h

theorem handleSchemaChange_float_target_witness :
    handleSchemaChange amd64 "float" "bigint" (Value.float64 (Float64.finite (mkRat 7 2)))
      = (Value.float64 (Float64.finite (mkRat 7 2)), true) :=
  handleSchemaChange_float_target amd64 "bigint" _ (Or.inr rfl)

/-- C13 as stated fails: with the target type float and the detected kind int, no runtime
makes `handleSchemaChange` return the integer part of the `float64` value 3.5, either as
the `int` 3 or as the `float64` 3, nor the `int` 3 for the `float64` value 3. -/
theorem handleSchemaChange_float_target_keeps :
    ¬ ∃ rt : GoRuntime,
      handleSchemaChange rt "float" "int" (Value.float64 (Float64.finite (mkRat 7 2)))
          = (Value.int 3, true) ∨
        handleSchemaChange rt "float" "int" (Value.float64 (Float64.finite (mkRat 7 2)))
          = (Value.float64 (Float64.finite 3), true) ∨
        handleSchemaChange rt "float" "int" (Value.float64 (Float64.finite 3))
          = (Value.int 3, true) := by
  rintro ⟨rt, h⟩
  rw [handleSchemaChange_int_to_float rt "int" _ (Or.inl rfl),
    handleSchemaChange_int_to_float rt "int" _ (Or.inl rfl)] at h
  revert h
  decide

/-- C14, as the code has it. When the detected kind is float, the value is stored as a
`float64` and the existing column type is int or bigint, `handleSchemaChange` returns
`ok = true` and a value of `int`, for every `float64`. For a finite value whose
truncation toward zero is a value of `int` it is that truncation; in particular 3.0 gives
the integer 3. For any other value (a truncation out of the range of `int`, an infinity,
NaN) it is the `int` that the implementation-dependent conversion yields. -/
theorem handleSchemaChange_truncates (rt : GoRuntime) (existingDataType : String)
    (floatVal : Float64)
    (h : existingDataType = "int" ∨ existingDataType = "bigint") :
    (∃ i,
      handleSchemaChange rt existingDataType "float" (Value.float64 floatVal)
        = (Value.int i, true) ∧
      rt.intSize.fits i ∧
      (∀ q, floatVal = Float64.finite q → rt.intSize.fits (truncate q) → i = truncate q) ∧
      ((∀ q, floatVal = Float64.finite q → ¬ rt.intSize.fits (truncate q)) →
        i = rt.intSize.wrap (rt.outOfRange floatVal))) ∧
    handleSchemaChange rt existingDataType "float" (Value.float64 (Float64.finite 3))
      = (Value.int 3, true) := by
  rw [handleSchemaChange_float_to_int rt existingDataType _ h,
    handleSchemaChange_float_to_int rt existingDataType _ h]
  have h3 : truncate 3 = 3 := by decide
  refine ⟨⟨floatToInt rt floatVal, rfl, ?_, ?_, ?_⟩, ?_⟩
  · cases floatVal with
    | finite q =>
      by_cases hfits : rt.intSize.fits (truncate q)
      · simp only [floatToInt, hfits, if_true]
      · simp only [floatToInt, hfits, if_false]
        exact IntSize.fits_wrap _ _
    | posInf => exact IntSize.fits_wrap _ _
    | negInf => exact IntSize.fits_wrap _ _
    | nan => exact IntSize.fits_wrap _ _
  · intro q hq hfits
    subst hq
    simp only [floatToInt, hfits, if_true]
  · intro hout
    cases floatVal with
    | finite q =>
      have hfits := hout q rfl
      simp only [floatToInt, hfits, if_false]
    | posInf => rfl
    | negInf => rfl
    | nan => rfl
  · simp [floatToInt, h3, IntSize.fits_three rt.intSize]

theorem handleSchemaChange_truncates_witness :
    handleSchemaChange amd64 "bigint" "float" (Value.float64 (Float64.finite (mkRat (-7) 2)))
      = (Value.int (-3), true) ∧
    handleSchemaChange amd64 "int" "float" (Value.float64 Float64.nan)
      = (Value.int (-9223372036854775808), true) := by
  constructor
  · obtain ⟨i, hi, _, htrunc, _⟩ :=
      (handleSchemaChange_truncates amd64 "bigint" (Float64.finite (mkRat (-7) 2))
        (Or.inr rfl)).1
    rw [hi, htrunc (mkRat (-7) 2) rfl (by decide)]
    decide
  · obtain ⟨i, hi, _, _, hout⟩ :=
      (handleSchemaChange_truncates amd64 "int" Float64.nan (Or.inl rfl)).1
    rw [hi, hout (fun q hq => by cases hq)]
    decide

/-- C14 as stated fails: the `float64` value `2^63` truncates to `2^63`, which is no
value of `int`, and no runtime makes `handleSchemaChange` return it. -/
theorem handleSchemaChange_truncation_overflows :
    ¬ ∃ rt : GoRuntime,
      handleSchemaChange rt "int" "float"
          (Value.float64 (Float64.finite 9223372036854775808))
        = (Value.int (truncate 9223372036854775808), true) := by
  rintro ⟨rt, h⟩
  rw [handleSchemaChange_float_to_int rt "int" _ (Or.inl rfl)] at h
  have ht : truncate 9223372036854775808 = 9223372036854775808 := by decide
  have hnot : ¬ rt.intSize.fits 9223372036854775808 := by
    intro hf
    have := IntSize.half_le rt.intSize
    have := hf.2
    omega
  simp only [floatToInt, ht, hnot, if_false, Prod.mk.injEq, Value.int.injEq, and_true] at h
  have h1 := IntSize.wrap_lt rt.intSize (rt.outOfRange (Float64.finite 9223372036854775808))
  have h2 := IntSize.half_le rt.intSize
  omega

/-- C20. In the branch of line 31 (detected kind float, existing type int or bigint) a
value that is not a `float64` does not make the coercion fail: `handleSchemaChange`
returns `(nil, true)`. -/
theorem handleSchemaChange_not_float64 (rt : GoRuntime) (existingDataType : String)
    (columnVal : Value) (h : existingDataType = "int" ∨ existingDataType = "bigint")
    (hv : ∀ floatVal, columnVal ≠ Value.float64 floatVal) :
    handleSchemaChange rt existingDataType "float" columnVal = (Value.nil, true) := by
  rw [handleSchemaChange_float_to_int rt existingDataType _ h]
  cases columnVal with
  | float64 floatVal => exact absurd rfl (hv floatVal)
  | _ => rfl

theorem handleSchemaChange_not_float64_witness :
    handleSchemaChange amd64 "int" "float" (Value.string "12") = (Value.nil, true) ∧
    handleSchemaChange amd64 "bigint" "float" (Value.int 12) = (Value.nil, true) :=
  ⟨handleSchemaChange_not_float64 amd64 "int" (Value.string "12") (Or.inl rfl)
      (fun _ hx => by cases hx),
    handleSchemaChange_not_float64 amd64 "bigint" (Value.int 12) (Or.inr rfl)
      (fun _ hx => by cases hx)⟩

/-! ## Properties of `consolidateStagingFilesSchemaUsingWarehouseSchema` -/

/-- C15. The discards table is injected unconditionally: when the naming-case function
keeps distinct names distinct (and the three synthetic tables have distinct names), the
schema returned maps the discards table to the map `discards`, whatever the staging
schemas held under that name; its columns are `table_name`, `row_id`, `column_name`,
`column_value` of type string, `received_at`, `uuid_ts` of type datetime, and `loaded_at`
of type datetime exactly when the destination type is `BQ`, and no other. -/
theorem consolidate_discards (utils : WarehouseUtils) (pageSize : Nat) (destType : String)
    (localSchema : SchemaT) (stagingFiles : List SchemaT) (fuel : Nat)
    (hp : pageSize ≥ 1) (hfuel : fuel > stagingFiles.length)
    (hinj : Function.Injective (utils.ToProviderCase destType))
    (hmr : utils.DiscardsTable ≠ utils.IdentityMergeRulesTable)
    (hmp : utils.DiscardsTable ≠ utils.IdentityMappingsTable) :
    ∃ result discards,
      consolidateStagingFilesSchemaUsingWarehouseSchema utils pageSize destType localSchema
        stagingFiles fuel = some result ∧
      GoMap.find result (utils.ToProviderCase destType utils.DiscardsTable)
        = some (some discards) ∧
      (∀ name ∈ ["table_name", "row_id", "column_name", "column_value"],
        GoMap.find discards (utils.ToProviderCase destType name) = some "string") ∧
      (∀ name ∈ ["received_at", "uuid_ts"],
        GoMap.find discards (utils.ToProviderCase destType name) = some "datetime") ∧
      (GoMap.find discards (utils.ToProviderCase destType "loaded_at")
        = if destType = "BQ" then some "datetime" else none) ∧
      (∀ k, k ∉ ["table_name", "row_id", "column_name", "column_value", "received_at",
          "uuid_ts", "loaded_at"].map (utils.ToProviderCase destType) →
        GoMap.find discards k = none) := by
  refine ⟨_, discardsColumns utils destType,
    consolidate_eq utils pageSize destType localSchema stagingFiles fuel hp hfuel, ?_,
    discards_columns utils destType hinj⟩
  rw [find_identityIn_other utils destType _ _
    (fun h => hmr (hinj h).symm) (fun h => hmp (hinj h).symm)]
  exact GoMap.find_put_self _ _ _

theorem consolidate_discards_witness :
    ∃ result discards,
      consolidateStagingFilesSchemaUsingWarehouseSchema (exampleUtils true ["BQ"]) 2 "BQ"
        [] [[("rudder_discards", some [("x", "int")])], [("T", some [("c", "int")])]] 3
        = some result ∧
      GoMap.find result "rudder_discards" = some (some discards) ∧
      GoMap.find discards "loaded_at" = some "datetime" ∧
      GoMap.find discards "x" = none :=
  let ⟨result, discards, h, hfind, _, _, hloaded, hother⟩ :=
    consolidate_discards (exampleUtils true ["BQ"]) 2 "BQ" []
      [[("rudder_discards", some [("x", "int")])], [("T", some [("c", "int")])]] 3
      (by decide) (by decide) (fun _ _ hab => hab) (by decide) (by decide)
  ⟨result, discards, h, hfind, hloaded, hother "x" (by decide)⟩

/-- C16. Merge-rules completion: when identity resolution is enabled, the destination
type is allowlisted and the consolidated schema (the merged staging schema with the
discards table set, as line 258 finds it) has the merge-rules table, that table ends with
the four merge-property columns, every column it had keeps its type, the missing ones of
the four are added as string and nothing else is added; and the identity-mappings table
is set to the columns `merge_property_type`, `merge_property_value`, `rudder_id` of type
string and `updated_at` of type datetime. Of the naming-case function only this is used:
the two identity tables get different names, and none of the three string columns gets
the name of `updated_at`. -/
theorem consolidate_merge_rules (utils : WarehouseUtils) (pageSize : Nat)
    (destType : String) (localSchema : SchemaT) (stagingFiles : List SchemaT) (fuel : Nat)
    (merged : SchemaT) (before : ColumnMap)
    (hp : pageSize ≥ 1) (hfuel : fuel > stagingFiles.length)
    (hrm : utils.ToProviderCase destType utils.IdentityMergeRulesTable
      ≠ utils.ToProviderCase destType utils.IdentityMappingsTable)
    (hcols : ∀ name ∈ ["merge_property_type", "merge_property_value", "rudder_id"],
      utils.ToProviderCase destType name ≠ utils.ToProviderCase destType "updated_at")
    (hflag : utils.IDResolutionEnabled = true)
    (hallow : destType ∈ utils.IdentityEnabledWarehouses)
    (hmerged : mergeSchema localSchema stagingFiles [] = some merged)
    (hrules : GoMap.find (injectDiscards utils destType merged)
      (utils.ToProviderCase destType utils.IdentityMergeRulesTable) = some before) :
    ∃ result after mappings,
      consolidateStagingFilesSchemaUsingWarehouseSchema utils pageSize destType localSchema
        stagingFiles fuel = some result ∧
      GoMap.find result (utils.ToProviderCase destType utils.IdentityMergeRulesTable)
        = some (some after) ∧
      (∀ name ∈ ["merge_property_1_type", "merge_property_1_value",
          "merge_property_2_type", "merge_property_2_value"],
        GoMap.find after (utils.ToProviderCase destType name) ≠ none) ∧
      (∀ k ty, columnTypeOf before k = some ty → GoMap.find after k = some ty) ∧
      (∀ k, columnTypeOf before k = none →
        GoMap.find after k
          = if k ∈ mergeRuleColumns utils destType then some "string" else none) ∧
      GoMap.find result (utils.ToProviderCase destType utils.IdentityMappingsTable)
        = some (some mappings) ∧
      (∀ name ∈ ["merge_property_type", "merge_property_value", "rudder_id"],
        GoMap.find mappings (utils.ToProviderCase destType name) = some "string") ∧
      (GoMap.find mappings (utils.ToProviderCase destType "updated_at") = some "datetime") ∧
      (∀ k, k ∉ ["merge_property_type", "merge_property_value", "rudder_id",
          "updated_at"].map (utils.ToProviderCase destType) →
        GoMap.find mappings k = none) := by
  have hm : merged = mergeAll localSchema stagingFiles [] := by
    rw [mergeSchema_eq] at hmerged
    exact (Option.some.inj hmerged).symm
  have hwd : GoMap.find (injectDiscards utils destType (mergeAll localSchema stagingFiles []))
      (utils.ToProviderCase destType utils.IdentityMergeRulesTable) = some before := by
    rw [← hm]
    exact hrules
  have hafter : ∀ k,
      GoMap.find ((mergeRuleColumns utils destType).foldl ensureColumn (rangeColumns before)) k
        = match columnTypeOf before k with
          | some ty => some ty
          | none => if k ∈ mergeRuleColumns utils destType then some "string" else none := by
    intro k
    rw [find_ensureColumns, columnTypeOf_eq_find]
  refine ⟨_, (mergeRuleColumns utils destType).foldl ensureColumn (rangeColumns before),
    identityMappingsColumns utils destType,
    consolidate_eq utils pageSize destType localSchema stagingFiles fuel hp hfuel,
    ?_, ?_, ?_, ?_, ?_, identityMappings_columns_of_ne utils destType hcols⟩
  · rw [identityIn_run utils destType _ before hflag hallow hwd,
      GoMap.find_put_ne _ _ (Ne.symm hrm), GoMap.find_put_self]
  · intro name hname
    rw [hafter]
    have hmem : utils.ToProviderCase destType name ∈ mergeRuleColumns utils destType := by
      simp only [List.mem_cons, List.mem_singleton, List.not_mem_nil, or_false] at hname
      rcases hname with h | h | h | h <;> subst h <;> simp [mergeRuleColumns]
    cases columnTypeOf before (utils.ToProviderCase destType name) <;> simp [hmem]
  · intro k ty hk
    rw [hafter, hk]
  · intro k hk
    rw [hafter, hk]
  · rw [identityIn_run utils destType _ before hflag hallow hwd, GoMap.find_put_self]

theorem consolidate_merge_rules_witness :
    (∃ result after,
      consolidateStagingFilesSchemaUsingWarehouseSchema (exampleUtils true ["RS"]) 1 "RS" []
        [[("rudder_identity_merge_rules",
          some [("merge_property_1_type", "text"), ("merge_property_2_value", "int")])]] 2
        = some result ∧
      GoMap.find result "rudder_identity_merge_rules" = some (some after) ∧
      GoMap.find after "merge_property_1_type" = some "text" ∧
      GoMap.find after "merge_property_2_value" = some "int" ∧
      GoMap.find after "merge_property_1_value" = some "string" ∧
      GoMap.find after "merge_property_2_type" = some "string") ∧
    (∃ result after mappings,
      consolidateStagingFilesSchemaUsingWarehouseSchema (upperCaseUtils true ["SNOWFLAKE"]) 1
        "SNOWFLAKE" []
        [[("RUDDER_IDENTITY_MERGE_RULES", some [("MERGE_PROPERTY_1_TYPE", "text")])]] 2
        = some result ∧
      GoMap.find result "RUDDER_IDENTITY_MERGE_RULES" = some (some after) ∧
      GoMap.find after "MERGE_PROPERTY_1_TYPE" = some "text" ∧
      GoMap.find after "MERGE_PROPERTY_2_VALUE" = some "string" ∧
      GoMap.find result "RUDDER_IDENTITY_MAPPINGS" = some (some mappings) ∧
      GoMap.find mappings "RUDDER_ID" = some "string" ∧
      GoMap.find mappings "UPDATED_AT" = some "datetime") :=
  ⟨(let ⟨result, after, _, h, hfind, _, hkeep, hnew, _⟩ :=
      consolidate_merge_rules (exampleUtils true ["RS"]) 1 "RS" []
        [[("rudder_identity_merge_rules",
          some [("merge_property_1_type", "text"), ("merge_property_2_value", "int")])]] 2
        [("rudder_identity_merge_rules",
          some [("merge_property_1_type", "text"), ("merge_property_2_value", "int")])]
        (some [("merge_property_1_type", "text"), ("merge_property_2_value", "int")])
        (by decide) (by decide) (by decide) (by decide) rfl (by decide) (by decide)
        (by decide)
    ⟨result, after, h, hfind, hkeep _ _ (by decide), hkeep _ _ (by decide),
      (hnew "merge_property_1_value" (by decide)).trans (by decide),
      (hnew "merge_property_2_type" (by decide)).trans (by decide)⟩),
   (let ⟨result, after, mappings, h, hfind, _, hkeep, hnew, hmap, hstr, hdate, _⟩ :=
      consolidate_merge_rules (upperCaseUtils true ["SNOWFLAKE"]) 1 "SNOWFLAKE" []
        [[("RUDDER_IDENTITY_MERGE_RULES", some [("MERGE_PROPERTY_1_TYPE", "text")])]] 2
        [("RUDDER_IDENTITY_MERGE_RULES", some [("MERGE_PROPERTY_1_TYPE", "text")])]
        (some [("MERGE_PROPERTY_1_TYPE", "text")])
        (by decide) (by decide) (by decide) (by decide) rfl (by decide) (by decide)
        (by decide)
    ⟨result, after, mappings, h, hfind, hkeep _ _ (by decide),
      (hnew "MERGE_PROPERTY_2_VALUE" (by decide)).trans (by decide), hmap,
      hstr "rudder_id" (by decide), hdate⟩)⟩

/-- C17, as the code has it. When the flag is off, or the destination type is not in
`IdentityEnabledWarehouses`, or the consolidated schema has no merge-rules table, the
identity step does nothing: the schema returned is the merged staging schema with the
discards table set, and under the name of the identity-mappings table it holds what the
merged staging schema holds there. -/
theorem consolidate_without_identity (utils : WarehouseUtils) (pageSize : Nat)
    (destType : String) (localSchema : SchemaT) (stagingFiles : List SchemaT) (fuel : Nat)
    (hp : pageSize ≥ 1) (hfuel : fuel > stagingFiles.length) :
    ∃ merged result,
      mergeSchema localSchema stagingFiles [] = some merged ∧
      consolidateStagingFilesSchemaUsingWarehouseSchema utils pageSize destType localSchema
        stagingFiles fuel = some result ∧
      ((utils.IDResolutionEnabled = false ∨
          destType ∉ utils.IdentityEnabledWarehouses ∨
          GoMap.find (injectDiscards utils destType merged)
            (utils.ToProviderCase destType utils.IdentityMergeRulesTable) = none) →
        result = injectDiscards utils destType merged ∧
        (utils.ToProviderCase destType utils.DiscardsTable
            ≠ utils.ToProviderCase destType utils.IdentityMappingsTable →
          GoMap.find result (utils.ToProviderCase destType utils.IdentityMappingsTable)
            = GoMap.find merged
                (utils.ToProviderCase destType utils.IdentityMappingsTable))) := by
  refine ⟨_, _, mergeSchema_eq localSchema stagingFiles [],
    consolidate_eq utils pageSize destType localSchema stagingFiles fuel hp hfuel, ?_⟩
  intro h
  rw [identityIn_skip utils destType _ h]
  refine ⟨rfl, fun hne => ?_⟩
  unfold injectDiscards
  exact GoMap.find_put_ne _ _ hne

theorem consolidate_without_identity_witness :
    ∃ result,
      consolidateStagingFilesSchemaUsingWarehouseSchema (exampleUtils true ["RS"]) 1 "BQ" []
        [[("rudder_identity_merge_rules", some [("merge_property_1_type", "text")])]] 2
        = some result ∧
      result = injectDiscards (exampleUtils true ["RS"]) "BQ"
        [("rudder_identity_merge_rules", some [("merge_property_1_type", "text")])] :=
  let ⟨merged, result, hm, h, hskip⟩ :=
    consolidate_without_identity (exampleUtils true ["RS"]) 1 "BQ" []
      [[("rudder_identity_merge_rules", some [("merge_property_1_type", "text")])]] 2
      (by decide) (by decide)
  have hmerged : merged
      = [("rudder_identity_merge_rules", some [("merge_property_1_type", "text")])] :=
    Option.some.inj (hm.symm.trans (by decide))
  ⟨result, h, hmerged ▸ (hskip (Or.inr (Or.inl (by decide)))).1⟩

/-- C17 as stated fails: with the flag off and a staging schema that holds a table under
the name of the identity-mappings table, the schema returned contains that table. -/
theorem consolidate_keeps_staged_mappings :
    ¬ ∃ result,
      consolidateStagingFilesSchemaUsingWarehouseSchema (exampleUtils false []) 1 "RS" []
        [[("rudder_identity_mappings", some [("x", "int")])]] 2 = some result ∧
      GoMap.find result
        ((exampleUtils false []).ToProviderCase "RS"
          (exampleUtils false []).IdentityMappingsTable) = none := by
  rintro ⟨result, h, hnone⟩
  have heval :
      consolidateStagingFilesSchemaUsingWarehouseSchema (exampleUtils false []) 1 "RS" []
        [[("rudder_identity_mappings", some [("x", "int")])]] 2
        = some [("rudder_identity_mappings", some [("x", "int")]),
            ("rudder_discards",
              some [("table_name", "string"), ("row_id", "string"),
                ("column_name", "string"), ("column_value", "string"),
                ("received_at", "datetime"), ("uuid_ts", "datetime")])] := by decide
  rw [heval] at h
  cases h
  revert hnone
  decide

/-! ## Properties of `handleDiscardTypes` -/

/-- C18. Discard skip rule: when the row data lacks the id column or the received_at
column, `handleDiscardTypes` writes nothing to the writer and returns a nil error; so
something is written only when both keys are present. -/
theorem handleDiscardTypes_skip (rt : GoRuntime) (ctx : DiscardContext)
    (tableName columnName : String) (columnVal : Value) (columnData : DataT)
    (gzWriter : List String) :
    ((GoMap.find columnData (ctx.getColumnName "id") = none ∨
        GoMap.find columnData (ctx.getColumnName "received_at") = none) →
      handleDiscardTypes rt ctx tableName columnName columnVal columnData gzWriter
        = (none, gzWriter)) ∧
    ((handleDiscardTypes rt ctx tableName columnName columnVal columnData gzWriter).2
        ≠ gzWriter →
      GoMap.find columnData (ctx.getColumnName "id") ≠ none ∧
      GoMap.find columnData (ctx.getColumnName "received_at") ≠ none) := by
  have hskip : (GoMap.find columnData (ctx.getColumnName "id") = none ∨
      GoMap.find columnData (ctx.getColumnName "received_at") = none) →
      handleDiscardTypes rt ctx tableName columnName columnVal columnData gzWriter
        = (none, gzWriter) := by
    intro h
    unfold handleDiscardTypes
    rcases h with h | h
    · rw [h]
    · rw [h]
      cases GoMap.find columnData (ctx.getColumnName "id") <;> rfl
  refine ⟨hskip, fun hwritten => ?_⟩
  by_contra hlacks
  apply hwritten
  have hor : GoMap.find columnData (ctx.getColumnName "id") = none ∨
      GoMap.find columnData (ctx.getColumnName "received_at") = none := by
    by_cases hid : GoMap.find columnData (ctx.getColumnName "id") = none
    · exact Or.inl hid
    · by_cases hrec : GoMap.find columnData (ctx.getColumnName "received_at") = none
      · exact Or.inr hrec
      · exact absurd ⟨hid, hrec⟩ hlacks
  rw [hskip hor]

theorem handleDiscardTypes_skip_witness :
    handleDiscardTypes amd64 exampleContext "T" "c" (Value.string "x")
        [("id", Value.string "r1"), ("c", Value.string "x")] ["earlier"]
      = (none, ["earlier"]) ∧
    handleDiscardTypes amd64 exampleContext "T" "c" (Value.string "x")
        [("id", Value.string "r1"), ("received_at", Value.string "t")] ["earlier"]
      = (none, ["earlier", "6"]) :=
  ⟨(handleDiscardTypes_skip amd64 exampleContext "T" "c" (Value.string "x")
      [("id", Value.string "r1"), ("c", Value.string "x")] ["earlier"]).1
      (Or.inr (by decide)),
    by decide⟩

/-! ## Properties of `updateLocalSchema` -/

/-- When no call to the database or to `json.Marshal` reports an error, two successive
calls of `updateLocalSchema` from a table with no row for the warehouse's source,
destination and namespace, with the schemas `s1` then `s2`, return nil and leave exactly
one row for them, holding `s2`: the first call inserts a row, the second updates it in
place; the other rows are unchanged. -/
theorem updateLocalSchema_upsert (now1 now2 : Nat) (warehouse : WarehouseT)
    (s1 s2 : SchemaT) (rows : List SchemaRow)
    (hnone : ∀ row ∈ rows, row.isOf warehouse = false) :
    ∃ rows1 rows2,
      updateLocalSchema noErrors now1 warehouse s1 rows = (none, rows1) ∧
      updateLocalSchema noErrors now2 warehouse s2 rows1 = (none, rows2) ∧
      rows1 = rows ++
        [{ source_id := warehouse.SourceID, Namespace := warehouse.Namespace,
           destination_id := warehouse.DestinationID,
           destination_type := warehouse.DestType, schema := s1, created_at := now1 }] ∧
      rows2 = rows ++
        [{ source_id := warehouse.SourceID, Namespace := warehouse.Namespace,
           destination_id := warehouse.DestinationID,
           destination_type := warehouse.DestType, schema := s2, created_at := now1 }] ∧
      (∃ row, rows2.filter (fun r => r.isOf warehouse) = [row] ∧ row.schema = s2) ∧
      rows2.filter (fun r => !r.isOf warehouse)
        = rows.filter (fun r => !r.isOf warehouse) := by
  have hfilter : rows.filter (fun r => r.isOf warehouse) = [] :=
    List.filter_eq_nil_iff.2 (fun row hrow => by simp [hnone row hrow])
  have hkeep : rows.filter (fun r => !r.isOf warehouse) = rows :=
    List.filter_eq_self.2 (fun row hrow => by simp [hnone row hrow])
  have hnew : ∀ (s : SchemaT),
      SchemaRow.isOf
        { source_id := warehouse.SourceID, Namespace := warehouse.Namespace,
          destination_id := warehouse.DestinationID,
          destination_type := warehouse.DestType, schema := s, created_at := now1 }
        warehouse = true := by
    intro s
    simp [SchemaRow.isOf]
  have hmap : rows.map (fun row =>
      if row.isOf warehouse = true then { row with schema := s2 } else row) = rows := by
    conv_rhs => rw [← List.map_id rows]
    exact List.map_congr_left (fun row hrow => by simp [hnone row hrow])
  refine ⟨_, _, ?_, ?_, rfl, rfl,
    ⟨{ source_id := warehouse.SourceID, Namespace := warehouse.Namespace,
       destination_id := warehouse.DestinationID,
       destination_type := warehouse.DestType, schema := s2, created_at := now1 },
      ?_, rfl⟩, ?_⟩
  · simp [updateLocalSchema, noErrors, hfilter]
  · simp [updateLocalSchema, noErrors, List.filter_append, hfilter, hnew, hmap]
  · simp [List.filter_append, hfilter, hnew]
  · simp [List.filter_append, hkeep, hnew]

theorem updateLocalSchema_upsert_witness :
    (∀ row ∈ [(⟨"other", "ns", "dst", "RS", [], 1⟩ : SchemaRow)],
      row.isOf ⟨"src", "dst", "ns", "RS"⟩ = false) ∧
    updateLocalSchema noErrors 8 ⟨"src", "dst", "ns", "RS"⟩ [("T", some [("c", "text")])]
        (updateLocalSchema noErrors 7 ⟨"src", "dst", "ns", "RS"⟩
          [("T", some [("c", "string")])] [⟨"other", "ns", "dst", "RS", [], 1⟩]).2
      = (none, [⟨"other", "ns", "dst", "RS", [], 1⟩,
          ⟨"src", "ns", "dst", "RS", [("T", some [("c", "text")])], 7⟩]) :=
  ⟨by decide,
    let ⟨_, _, h1, h2, hrows1, hrows2, _⟩ :=
      updateLocalSchema_upsert 7 8 ⟨"src", "dst", "ns", "RS"⟩ [("T", some [("c", "string")])]
        [("T", some [("c", "text")])] [⟨"other", "ns", "dst", "RS", [], 1⟩] (by decide)
    by rw [h1, h2, hrows2]; rfl⟩

/-- The error of the `INSERT` is not returned: when the `Exec` of line 136 fails in a
table with no row for the warehouse, `updateLocalSchema` returns nil and the table is as
it was. -/
theorem updateLocalSchema_insert_error_lost (now : Nat) (warehouse : WarehouseT)
    (updatedSchema : SchemaT) (rows : List SchemaRow) (err : String)
    (hnone : ∀ row ∈ rows, row.isOf warehouse = false) :
    updateLocalSchema { noErrors with exec := some err } now warehouse updatedSchema rows
      = (none, rows) := by
  have hfilter : rows.filter (fun r => r.isOf warehouse) = [] :=
    List.filter_eq_nil_iff.2 (fun row hrow => by simp [hnone row hrow])
  simp [updateLocalSchema, noErrors, hfilter]

/-- The error of the `UPDATE` is returned: when the `Exec` of line 139 fails in a table
with a row for the warehouse, `updateLocalSchema` returns that error. -/
theorem updateLocalSchema_update_error_returned (now : Nat) (warehouse : WarehouseT)
    (updatedSchema : SchemaT) (rows : List SchemaRow) (err : String)
    (hsome : ∃ row ∈ rows, row.isOf warehouse = true) :
    updateLocalSchema { noErrors with exec := some err } now warehouse updatedSchema rows
      = (some err, rows) := by
  obtain ⟨row, hrow, hof⟩ := hsome
  have hne : (rows.filter (fun r => r.isOf warehouse)).length ≠ 0 := by
    intro h0
    have hnil := List.length_eq_zero.1 h0
    have hmem : row ∈ rows.filter (fun r => r.isOf warehouse) :=
      List.mem_filter.2 ⟨hrow, hof⟩
    rw [hnil] at hmem
    exact absurd hmem (List.not_mem_nil _)
  simp [updateLocalSchema, noErrors, hne]

/-- C19 fails on the code: a call whose `INSERT` fails at the `Exec` of line 136 returns
nil, since line 130 declares a new `err` and line 141 tests the outer one. From a table
with no row for (src, dst, ns), two successive calls with the schemas `{T.c: string}`
then `{T.c: text}` both return nil and leave the table without a row for the tuple;
whereas with a row there, the failing `Exec` of the `UPDATE` (line 139) is returned. -/
theorem updateLocalSchema_nil_without_row :
    updateLocalSchema { noErrors with exec := some "connection lost" } 7
        ⟨"src", "dst", "ns", "RS"⟩ [("T", some [("c", "string")])]
        [⟨"other", "ns", "dst", "RS", [], 1⟩]
      = (none, [⟨"other", "ns", "dst", "RS", [], 1⟩]) ∧
    updateLocalSchema { noErrors with exec := some "connection lost" } 8
        ⟨"src", "dst", "ns", "RS"⟩ [("T", some [("c", "text")])]
        [⟨"other", "ns", "dst", "RS", [], 1⟩]
      = (none, [⟨"other", "ns", "dst", "RS", [], 1⟩]) ∧
    [(⟨"other", "ns", "dst", "RS", [], 1⟩ : SchemaRow)].filter
        (fun row => row.isOf ⟨"src", "dst", "ns", "RS"⟩) = [] ∧
    updateLocalSchema { noErrors with exec := some "connection lost" } 8
        ⟨"src", "dst", "ns", "RS"⟩ [("T", some [("c", "text")])]
        [⟨"src", "ns", "dst", "RS", [("T", some [("c", "string")])], 7⟩]
      = (some "connection lost",
          [⟨"src", "ns", "dst", "RS", [("T", some [("c", "string")])], 7⟩]) := by
  decide

end Warehouse
